import Mathlib

/-!
Verification of the pmtilr PMTiles v3 reader.

Shallow embedding of the Go source: uint64 values are modelled as `Nat`
with explicit reduction modulo `2 ^ 64` wherever the Go code can wrap
(subtraction, shifts); fallible functions return `Option` or `Except`.
-/

namespace Pmtilr

/-- Modulus of Go uint64 arithmetic. -/
def M64 : Nat := 2 ^ 64

/-- Go uint64 subtraction `a - b`, wrapping modulo `2 ^ 64` (callers pass `a b < 2 ^ 64`). -/
def sub64 (a b : Nat) : Nat := (a + M64 - b) % M64

/-- Function `rotate` from hilbert.go: lays points out on the Hilbert curve.
The Go subtractions `n - 1 - y` are uint64 and may wrap, hence `sub64`. -/
def rotate (n x y rx ry : Nat) : Nat × Nat :=
  if ry = 0 then
    if rx ≠ 0 then (sub64 (sub64 n 1) y, sub64 (sub64 n 1) x)
    else (y, x)
  else (x, y)

/-- Constant `MaxZ` from hilbert.go. -/
def MaxZ : Nat := 26

/-- Loop of `ZXYToHilbertTileID` (hilbert.go): iterates `s = 2 ^ pos` for
`pos = k-1, ..., 0`, accumulating `((3*rx) ^ ry) * 2 ^ pos`.  For `z = 0`
the Go loop body never runs (`s` starts as `1 << (0 - 1)`, and a Go shift
by a count of at least 64 yields 0), matching the fuel-0 case. -/
def hilbertAcc : Nat → Nat → Nat → Nat → Nat
  | 0, _, _, acc => acc
  | k + 1, x, y, acc =>
    let s := 2 ^ k
    let rx := x &&& s
    let ry := y &&& s
    let p := rotate s x y rx ry
    hilbertAcc k p.1 p.2 (acc + ((3 * rx) ^^^ ry) * s)

/-- Function `ZXYToHilbertTileID` from hilbert.go.  Errors become `none`. -/
def ZXYToHilbertTileID (z x y : Nat) : Option Nat :=
  if z > MaxZ then none
  else if 2 ^ z ≤ x ∨ 2 ^ z ≤ y then none
  else some (hilbertAcc z x y ((2 ^ z * 2 ^ z - 1) / 3))

/-- Constant `invalidTileID` from fast_hilbert.go. -/
def invalidTileID : Nat := 0x5555555555555555

/-- Fueled binary length: `len64Acc f n` is the bit length of `n` for
`n < 2 ^ f` (executable counterpart of `Nat.size`, proved equal below). -/
def len64Acc : Nat → Nat → Nat
  | 0, _ => 0
  | f + 1, n => if n = 0 then 0 else len64Acc f (n / 2) + 1

/-- Model of `bits.Len64` from math/bits: bit length of a uint64. -/
def len64 (n : Nat) : Nat := len64Acc 64 n

/-- Function `ZoomFromHilbertTileID` from hilbert.go:
`(bits.Len64(3*i+1) - 1) / 2`.  The Go multiplication and increment are
uint64 and wrap modulo `2 ^ 64`. -/
def ZoomFromHilbertTileID (i : Nat) : Nat :=
  (len64 ((3 * i + 1) % M64) - 1) / 2

/-- Decode loop of `ZXYFromHilbertTileID` (hilbert.go): fuel counts the
remaining iterations, `a` is the current level, `t` the remaining code. -/
def hilbertDecAcc : Nat → Nat → Nat → Nat → Nat → Nat × Nat
  | 0, _, _, x, y => (x, y)
  | k + 1, a, t, x, y =>
    let s := 2 ^ a
    let rx := (t >>> 1) &&& 1
    let ry := (t &&& 1) ^^^ rx
    let p := rotate s x y rx ry
    hilbertDecAcc k (a + 1) (t >>> 2) (p.1 + rx * s) (p.2 + ry * s)

/-- Function `ZXYFromHilbertTileID` from hilbert.go.  Errors become `none`. -/
def ZXYFromHilbertTileID (i : Nat) : Option (Nat × Nat × Nat) :=
  if invalidTileID ≤ i then none
  else
    let z := ZoomFromHilbertTileID i
    if z > MaxZ then none
    else
      let pfx := (2 ^ (2 * z) - 1) / 3
      let t := sub64 i pfx
      let p := hilbertDecAcc z 0 t 0 0
      some (z, p.1, p.2)

/-- Constant `lut1` from fast_hilbert.go. -/
def lut1 : Nat := 0x361E9CB4

/-- Constant `lut2` from fast_hilbert.go. -/
def lut2 : Nat := 0x8FE65831

/-- Loop of `FastZXYToHilbertTileID` (fast_hilbert.go): iterates `i` from
`z` down to 1 with `shift = i - 1`, so the fuel is the current shift plus
one. -/
def fastEncAcc : Nat → Nat → Nat → Nat → Nat → Nat
  | 0, _, _, _, result => result
  | k + 1, x, y, state, result =>
    let row := (state <<< 3) ||| (((x >>> k) &&& 1) <<< 2) ||| (((y >>> k) &&& 1) <<< 1)
    fastEncAcc k x y ((lut2 >>> row) &&& 3) ((result <<< 2) ||| ((lut1 >>> row) &&& 3))

/-- Function `FastZXYToHilbertTileID` from fast_hilbert.go. -/
def FastZXYToHilbertTileID (z x y : Nat) : Option Nat :=
  if z > 31 then none
  else if 2 ^ z ≤ x ∨ 2 ^ z ≤ y then none
  else some ((2 ^ (2 * z) - 1) / 3 + fastEncAcc z x y 0 0)

/-- Zoom loop of `FastZXYfromHilbertTileID` (fast_hilbert.go):
`for (1 << (2*(z+1))) <= 3*tileID+1 { z++ }`.  The Go shift is uint64 and
yields 0 once the count reaches 64, hence the reduction modulo `2 ^ 64`;
the loop is modelled with fuel 64, enough for every input on which the Go
loop terminates. -/
def fastZoomAcc : Nat → Nat → Nat → Nat
  | 0, z, _ => z
  | f + 1, z, c => if 2 ^ (2 * (z + 1)) % M64 ≤ c then fastZoomAcc f (z + 1) c else z

/-- Constant `lutX` from fast_hilbert.go. -/
def lutX : Nat := 0x936C

/-- Constant `lutY` from fast_hilbert.go. -/
def lutY : Nat := 0x39C6

/-- Constant `lutState` from fast_hilbert.go. -/
def lutState : Nat := 0x3E6B94C1

/-- Decode loop of `FastZXYfromHilbertTileID` (fast_hilbert.go): iterates
`i` from `2*z` down by 2 with `shift = i - 2`, so fuel `k + 1` handles the
digit at shift `2 * k`. -/
def fastDecAcc : Nat → Nat → Nat → Nat → Nat → Nat × Nat
  | 0, _, _, x, y => (x, y)
  | k + 1, state, code, x, y =>
    let codeBits := (code >>> (2 * k)) &&& 3
    let row := (state <<< 2) ||| codeBits
    fastDecAcc k ((lutState >>> (2 * row)) &&& 3) code
      ((x <<< 1) ||| ((lutX >>> row) &&& 1)) ((y <<< 1) ||| ((lutY >>> row) &&& 1))

/-- Function `FastZXYfromHilbertTileID` from fast_hilbert.go. -/
def FastZXYfromHilbertTileID (tileID : Nat) : Option (Nat × Nat × Nat) :=
  if invalidTileID ≤ tileID then none
  else
    let z := fastZoomAcc 64 0 ((3 * tileID + 1) % M64)
    let pfx := (2 ^ (2 * z) - 1) / 3
    let code := sub64 tileID pfx
    let p := fastDecAcc z 0 code 0 0
    some (z, p.1, p.2)

/-- Clean structural restatement of the Hilbert index of a point inside
level `k` (proof device; proved equal to the loop of hilbert.go below).
All intermediate states are kept reduced below the current square size. -/
def encC : Nat → Nat → Nat → Nat
  | 0, _, _ => 0
  | k + 1, x, y =>
    let s := 2 ^ k
    let rx := x / s % 2
    let ry := y / s % 2
    let xl := x % s
    let yl := y % s
    ((3 * rx) ^^^ ry) * (s * s) +
      (if ry = 1 then encC k xl yl
       else if rx = 1 then encC k (s - 1 - yl) (s - 1 - xl)
       else encC k yl xl)

/-- The four square symmetries tracked by the 2-bit state of the
fast_hilbert.go lookup tables, acting on the square of side `m`. -/
def applyT (st m x y : Nat) : Nat × Nat :=
  if st = 0 then (x, y)
  else if st = 1 then (y, x)
  else if st = 2 then (m - 1 - x, m - 1 - y)
  else (m - 1 - y, m - 1 - x)

/-! Directory codec (part of the directory source file, singleflight
version): varint decoding, entry deserialization passes, binary search. -/

/-- Loop of binary.ReadUvarint (encoding/binary): up to 10 bytes, 7 data
bits per byte; errors (short input, overflow) become `none`.  The check
`fuel = 0` corresponds to `i == MaxVarintLen64-1` in Go. -/
def readUvarintAcc : Nat → Nat → Nat → List Nat → Option (Nat × List Nat)
  | 0, _, _, _ => none
  | _ + 1, _, _, [] => none
  | fuel + 1, x, s, b :: rest =>
    if b < 0x80 then
      if fuel = 0 ∧ b > 1 then none
      else some ((x ||| b <<< s) % M64, rest)
    else readUvarintAcc fuel ((x ||| (b &&& 0x7f) <<< s) % M64) (s + 7) rest

/-- Model of binary.ReadUvarint over a byte list. -/
def readUvarint (bs : List Nat) : Option (Nat × List Nat) :=
  readUvarintAcc 10 0 0 bs

/-- Entry from the directory source file: a tile or leaf-directory
reference.  `RunLength` is a Go uint32, the other numeric fields uint64. -/
structure Entry where
  TileID : Nat
  Offset : Nat
  Length : Nat
  RunLength : Nat
deriving DecidableEq, Repr

/-- Pass `Entries.addTileID`: reads one delta per entry and assigns the
cumulative sum (uint64 addition). -/
def addTileIDAcc : Nat → List Entry → List Nat → Option (List Entry × List Nat)
  | _, [], bs => some ([], bs)
  | lastId, e :: es, bs =>
    match readUvarint bs with
    | none => none
    | some (delta, bs1) =>
      let tid := (lastId + delta) % M64
      match addTileIDAcc tid es bs1 with
      | none => none
      | some (es1, bs2) => some ({ e with TileID := tid } :: es1, bs2)

/-- Pass `Entries.addRunLength`: reads one varint per entry and assigns it
to the 32-bit `RunLength` field; the Go conversion `uint32(runLength)`
truncates modulo `2 ^ 32`. -/
def addRunLengthAcc : List Entry → List Nat → Option (List Entry × List Nat)
  | [], bs => some ([], bs)
  | e :: es, bs =>
    match readUvarint bs with
    | none => none
    | some (rl, bs1) =>
      match addRunLengthAcc es bs1 with
      | none => none
      | some (es1, bs2) => some ({ e with RunLength := rl % 2 ^ 32 } :: es1, bs2)

/-- Pass `Entries.addLength`. -/
def addLengthAcc : List Entry → List Nat → Option (List Entry × List Nat)
  | [], bs => some ([], bs)
  | e :: es, bs =>
    match readUvarint bs with
    | none => none
    | some (v, bs1) =>
      match addLengthAcc es bs1 with
      | none => none
      | some (es1, bs2) => some ({ e with Length := v } :: es1, bs2)

/-- Offset rule of `Entries.addOffset`: a stored value of 0 propagates the
previous offset plus length, except at index 0; otherwise the stored
value minus 1 (uint64, so a stored 0 at index 0 wraps). -/
def offsetFromPrev (prev : Option (Nat × Nat)) (v : Nat) : Nat :=
  match prev with
  | some (po, pl) => if v = 0 then (po + pl) % M64 else sub64 v 1
  | none => sub64 v 1

/-- Pass `Entries.addOffset`; `prev` is the previous entry's already
assigned offset and its length (absent at index 0). -/
def addOffsetAcc : Option (Nat × Nat) → List Entry → List Nat → Option (List Entry × List Nat)
  | _, [], bs => some ([], bs)
  | prev, e :: es, bs =>
    match readUvarint bs with
    | none => none
    | some (v, bs1) =>
      let off := offsetFromPrev prev v
      match addOffsetAcc (some (off, e.Length)) es bs1 with
      | none => none
      | some (es1, bs2) => some ({ e with Offset := off } :: es1, bs2)

/-- `Entries.deserialize`: the four passes in order. -/
def deserializeEntries (es : List Entry) (bs : List Nat) : Option (List Entry × List Nat) :=
  match addTileIDAcc 0 es bs with
  | none => none
  | some (es1, bs1) =>
    match addRunLengthAcc es1 bs1 with
    | none => none
    | some (es2, bs2) =>
      match addLengthAcc es2 bs2 with
      | none => none
      | some (es3, bs3) => addOffsetAcc none es3 bs3

/-- `readEntries`: entry count then the four field passes. -/
def readEntries (bs : List Nat) : Option (List Entry × List Nat) :=
  match readUvarint bs with
  | none => none
  | some (count, bs1) => deserializeEntries (List.replicate count ⟨0, 0, 0, 0⟩) bs1

/-- Directory from the directory source file. -/
structure Directory where
  key : String
  size : Nat
  entries : List Entry

/-- Loop of sort.Search from the Go standard library; the gap `j - i`
shrinks every iteration, so fuel `n + 1` suffices. -/
def searchLoop (f : Nat → Bool) : Nat → Nat → Nat → Nat
  | 0, i, _ => i
  | fuel + 1, i, j =>
    if i < j then
      if f ((i + j) / 2) then searchLoop f fuel i ((i + j) / 2)
      else searchLoop f fuel ((i + j) / 2 + 1) j
    else i

/-- sort.Search: smallest index in `[0, n]` at which `f` flips to true. -/
def sortSearch (n : Nat) (f : Nat → Bool) : Nat :=
  searchLoop f (n + 1) 0 n

/-- `Directory.FindTile` from the directory source file.  The sum
`e.TileID + uint64(e.RunLength)` is a uint64 addition, hence the modulus. -/
def Directory.FindTile (d : Directory) (tileId : Nat) : Option Entry :=
  let i := sortSearch d.entries.length
    (fun h => decide (tileId < (d.entries.getD h ⟨0, 0, 0, 0⟩).TileID))
  if i = 0 then none
  else
    let e := d.entries.getD (i - 1) ⟨0, 0, 0, 0⟩
    if e.RunLength = 0 then some e
    else if tileId = e.TileID ∨ tileId < (e.TileID + e.RunLength) % M64 then some e
    else none

/-! Header codec (header.go). -/

/-- Error kinds distinguished by header parsing. -/
inductive HeaderError where
  | truncated
  | badMagic
  | unsupportedVersion
  | unknownVersion
deriving DecidableEq, Repr

/-- Little-endian integer built from `n` bytes of `d` starting at `off`
(model of binary.LittleEndian.Uint64 and Uint32). -/
def readLE (d : List Nat) (off : Nat) : Nat → Nat
  | 0 => 0
  | n + 1 => d.getD off 0 + 256 * readLE d (off + 1) n

/-- Reinterpret a u32 bit pattern as a signed int32 (Go `int32(u)`). -/
def toInt32 (u : Nat) : Int :=
  if u < 2 ^ 31 then (u : Int) else (u : Int) - 2 ^ 32

/-- HeaderV3 from header.go (numeric enums kept as raw bytes). -/
structure HeaderV3 where
  Etag : String
  SpecVersion : Nat
  RootOffset : Nat
  RootLength : Nat
  MetadataOffset : Nat
  MetadataLength : Nat
  LeafDirectoryOffset : Nat
  LeafDirectoryLength : Nat
  TileDataOffset : Nat
  TileDataLength : Nat
  AddressedTilesCount : Nat
  TileEntriesCount : Nat
  TileContentsCount : Nat
  Clustered : Bool
  InternalCompression : Nat
  TileCompression : Nat
  TileType : Nat
  MinZoom : Nat
  MaxZoom : Nat
  MinLonE7 : Int
  MinLatE7 : Int
  MaxLonE7 : Int
  MaxLatE7 : Int
  CenterZoom : Nat
  CenterLonE7 : Int
  CenterLatE7 : Int
deriving DecidableEq, Repr

/-- `HeaderV3.version` (header.go): 1 and 2 are unsupported, 3 is valid,
anything else is unknown. -/
def headerVersion (b : Nat) : Except HeaderError Nat :=
  if b = 1 ∨ b = 2 then .error .unsupportedVersion
  else if b = 3 then .ok 3
  else .error .unknownVersion

/-- ASCII bytes of the magic string "PMTiles". -/
def pmMagic : List Nat := [80, 77, 84, 105, 108, 101, 115]

/-- `HeaderV3.deserialize` (header.go) over a 127-byte buffer. -/
def HeaderV3.deserialize (d : List Nat) : Except HeaderError HeaderV3 :=
  if d.take 7 ≠ pmMagic then .error .badMagic
  else
    match headerVersion (d.getD 7 0) with
    | .error e => .error e
    | .ok v =>
      .ok { Etag := "", SpecVersion := v
            RootOffset := readLE d 8 8, RootLength := readLE d 16 8
            MetadataOffset := readLE d 24 8, MetadataLength := readLE d 32 8
            LeafDirectoryOffset := readLE d 40 8, LeafDirectoryLength := readLE d 48 8
            TileDataOffset := readLE d 56 8, TileDataLength := readLE d 64 8
            AddressedTilesCount := readLE d 72 8, TileEntriesCount := readLE d 80 8
            TileContentsCount := readLE d 88 8
            Clustered := d.getD 96 0 = 1
            InternalCompression := d.getD 97 0, TileCompression := d.getD 98 0
            TileType := d.getD 99 0
            MinZoom := d.getD 100 0, MaxZoom := d.getD 101 0
            MinLonE7 := toInt32 (readLE d 102 4), MinLatE7 := toInt32 (readLE d 106 4)
            MaxLonE7 := toInt32 (readLE d 110 4), MaxLatE7 := toInt32 (readLE d 114 4)
            CenterZoom := d.getD 118 0
            CenterLonE7 := toInt32 (readLE d 119 4)
            CenterLatE7 := toInt32 (readLE d 123 4) }

/-- `NewHeader` (header.go): io.ReadFull of 127 bytes (truncation error on
short input) followed by deserialization. -/
def NewHeader (bs : List Nat) : Except HeaderError HeaderV3 :=
  if bs.length < 127 then .error .truncated
  else HeaderV3.deserialize (bs.take 127)

/-! Resolver (Repository.Tile of the directory source file, singleflight
version, and Source.Tile).  Range reads, decompression and caching are
abstracted as the functions `dirAt` (DirectoryAt) and `readTile`
(readTileBytes); their failures carry `TileError` values. -/

/-- Error kinds appearing in the resolver. -/
inductive TileError where
  | zoomOutOfRange
  | encodeError
  | ioError
  | maxDepthExceeded
deriving DecidableEq, Repr

/-- Loop of `Repository.Tile`: walk up to `directoryMaxDepth = 3`
directories; a missing entry yields `nil, nil`, modelled as `.ok []`. -/
def walkTile (dirAt : Nat → Nat → Except TileError Directory)
    (readTile : Nat → Nat → Except TileError (List Nat))
    (header : HeaderV3) (tileId : Nat) :
    Nat → Nat → Nat → Except TileError (List Nat)
  | 0, _, _ => .error .maxDepthExceeded
  | fuel + 1, dO, dS =>
    match dirAt dO dS with
    | .error e => .error e
    | .ok dir =>
      match dir.FindTile tileId with
      | none => .ok []
      | some e =>
        if e.RunLength = 0 then
          walkTile dirAt readTile header tileId fuel
            ((header.LeafDirectoryOffset + e.Offset) % M64) e.Length
        else readTile ((header.TileDataOffset + e.Offset) % M64) e.Length

/-- `Repository.Tile` (singleflight version): encode the id, then walk
from the root directory with depth cap 3. -/
def Repository.Tile (dirAt : Nat → Nat → Except TileError Directory)
    (readTile : Nat → Nat → Except TileError (List Nat))
    (header : HeaderV3) (z x y : Nat) : Except TileError (List Nat) :=
  match FastZXYToHilbertTileID z x y with
  | none => .error .encodeError
  | some tileId => walkTile dirAt readTile header tileId 3 header.RootOffset header.RootLength

/-- `Source.Tile` (source file with the zoom gate): reject zoom outside
`[MinZoom, MaxZoom]`, otherwise delegate to the repository. -/
def Source.Tile (repoTile : Nat → Nat → Nat → Except TileError (List Nat))
    (header : HeaderV3) (z x y : Nat) : Except TileError (List Nat) :=
  if z < header.MinZoom ∨ z > header.MaxZoom then .error .zoomOutOfRange
  else repoTile z x y

/-- Helper for specs: decode `n` consecutive varints. -/
def decodeUvarints : Nat → List Nat → Option (List Nat × List Nat)
  | 0, bs => some ([], bs)
  | n + 1, bs =>
    match readUvarint bs with
    | none => none
    | some (v, bs1) =>
      match decodeUvarints n bs1 with
      | none => none
      | some (vs, bs2) => some (v :: vs, bs2)

/-! Arithmetic helper lemmas. -/

theorem M64_pos : 0 < M64 := by decide

theorem sub64_lt (a b : Nat) : sub64 a b < M64 := Nat.mod_lt _ M64_pos

theorem sub64_eq_of_le (a b : Nat) (hb : b ≤ a) (ha : a < M64) : sub64 a b = a - b := by
  unfold sub64
  have h : a + M64 - b = (a - b) + M64 := by omega
  rw [h, Nat.add_mod_right, Nat.mod_eq_of_lt (by omega)]

theorem pow2_dvd_M64 {k : Nat} (h : k ≤ 64) : 2 ^ k ∣ M64 := pow_dvd_pow 2 h

theorem sub64_mod_pow {k y : Nat} (hk : k ≤ 64) (hy : y < M64) :
    sub64 (2 ^ k - 1) y % 2 ^ k = 2 ^ k - 1 - y % 2 ^ k := by
  have hs : (0 : Nat) < 2 ^ k := Nat.pos_pow_of_pos k (by decide)
  obtain ⟨c, hc⟩ := pow2_dvd_M64 hk
  have hP := Nat.div_add_mod y (2 ^ k)
  have hr : y % 2 ^ k < 2 ^ k := Nat.mod_lt _ hs
  have hmul : 2 ^ k * (c - y / 2 ^ k) = 2 ^ k * c - 2 ^ k * (y / 2 ^ k) :=
    Nat.mul_sub _ _ _
  have hPle : 2 ^ k * (y / 2 ^ k) ≤ y := Nat.le.intro hP
  have key : 2 ^ k - 1 + M64 - y = (2 ^ k - 1 - y % 2 ^ k) + (2 ^ k * (c - y / 2 ^ k)) := by
    omega
  unfold sub64
  rw [Nat.mod_mod_of_dvd _ (pow2_dvd_M64 hk), key, mul_comm (2 ^ k) (c - y / 2 ^ k),
    Nat.add_mul_mod_self_right, Nat.mod_eq_of_lt (by omega)]

theorem mul_pow_xor (k a b : Nat) : (a * 2 ^ k) ^^^ (b * 2 ^ k) = (a ^^^ b) * 2 ^ k := by
  apply Nat.eq_of_testBit_eq
  intro i
  simp only [Nat.testBit_xor, ← Nat.shiftLeft_eq, Nat.testBit_shiftLeft]
  cases hd : decide (i ≥ k) <;> simp

theorem and_pow_eq (x k : Nat) : x &&& 2 ^ k = x / 2 ^ k % 2 * 2 ^ k := by
  rw [Nat.and_two_pow, Nat.toNat_testBit]

theorem mod_pow_succ_div (x k : Nat) : x % 2 ^ (k + 1) / 2 ^ k = x / 2 ^ k % 2 := by
  rw [pow_succ]
  exact Nat.mod_mul_right_div_self x (2 ^ k) 2

theorem mod_pow_mod (x : Nat) {j k : Nat} (h : j ≤ k) : x % 2 ^ k % 2 ^ j = x % 2 ^ j :=
  Nat.mod_mod_of_dvd x (pow_dvd_pow 2 h)

theorem three_dvd_pow4_sub_one (z : Nat) : 3 ∣ 2 ^ (2 * z) - 1 := by
  induction z with
  | zero => decide
  | succ n ih =>
    have h : 2 ^ (2 * (n + 1)) = 4 * 2 ^ (2 * n) := by
      rw [show 2 * (n + 1) = 2 * n + 2 by ring, pow_add]
      ring
    have hp : (0 : Nat) < 2 ^ (2 * n) := Nat.pos_pow_of_pos _ (by decide)
    omega

theorem three_mul_pfx (z : Nat) : 3 * ((2 ^ (2 * z) - 1) / 3) = 2 ^ (2 * z) - 1 :=
  Nat.mul_div_cancel' (three_dvd_pow4_sub_one z)

theorem two_pow_two_mul (k : Nat) : 2 ^ k * 2 ^ k = 2 ^ (2 * k) := by
  rw [← pow_add]
  ring_nf

/-! Lemmas about the clean encoder `encC`. -/

theorem encC_succ (k x y : Nat) : encC (k + 1) x y =
    (3 * (x / 2 ^ k % 2) ^^^ y / 2 ^ k % 2) * (2 ^ k * 2 ^ k) +
      (if y / 2 ^ k % 2 = 1 then encC k (x % 2 ^ k) (y % 2 ^ k)
       else if x / 2 ^ k % 2 = 1 then encC k (2 ^ k - 1 - y % 2 ^ k) (2 ^ k - 1 - x % 2 ^ k)
       else encC k (y % 2 ^ k) (x % 2 ^ k)) := rfl

theorem encC_lt (k : Nat) : ∀ x y, encC k x y < 2 ^ (2 * k) := by
  induction k with
  | zero => intro x y; simp [encC]
  | succ k ih =>
    intro x y
    rw [encC_succ]
    have hq : 3 * (x / 2 ^ k % 2) ^^^ y / 2 ^ k % 2 ≤ 3 := by
      rcases Nat.mod_two_eq_zero_or_one (x / 2 ^ k) with hx | hx <;>
        rcases Nat.mod_two_eq_zero_or_one (y / 2 ^ k) with hy | hy <;>
          rw [hx, hy] <;> decide
    have hb : (if y / 2 ^ k % 2 = 1 then encC k (x % 2 ^ k) (y % 2 ^ k)
       else if x / 2 ^ k % 2 = 1 then encC k (2 ^ k - 1 - y % 2 ^ k) (2 ^ k - 1 - x % 2 ^ k)
       else encC k (y % 2 ^ k) (x % 2 ^ k)) < 2 ^ (2 * k) := by
      split
      · exact ih _ _
      · split
        · exact ih _ _
        · exact ih _ _
    have hpow : 2 ^ (2 * (k + 1)) = 4 * 2 ^ (2 * k) := by
      rw [show 2 * (k + 1) = 2 * k + 2 by ring, pow_add]
      ring
    have hss := two_pow_two_mul k
    have hd : (3 * (x / 2 ^ k % 2) ^^^ y / 2 ^ k % 2) * (2 ^ k * 2 ^ k) ≤
        3 * (2 ^ k * 2 ^ k) := Nat.mul_le_mul_right _ hq
    omega

theorem encC_mod (k x y : Nat) : encC k (x % 2 ^ k) (y % 2 ^ k) = encC k x y := by
  cases k with
  | zero => simp [encC]
  | succ k =>
    rw [encC_succ, encC_succ, mod_pow_succ_div, mod_pow_succ_div,
      mod_pow_mod x (Nat.le_succ k), mod_pow_mod y (Nat.le_succ k),
      Nat.mod_mod_of_dvd (x / 2 ^ k) (dvd_refl 2), Nat.mod_mod_of_dvd (y / 2 ^ k) (dvd_refl 2)]

/-! Equivalence of the hilbert.go encoder loop with the clean encoder. -/

theorem hilbertAcc_eq : ∀ k, k ≤ 63 → ∀ x y acc, x < M64 → y < M64 →
    hilbertAcc k x y acc = acc + encC k x y := by
  intro k
  induction k with
  | zero =>
    intro _ x y acc _ _
    simp [hilbertAcc, encC]
  | succ k ih =>
    intro hk x y acc hx hy
    have hks : k ≤ 63 := by omega
    have hs : (0 : Nat) < 2 ^ k := Nat.pos_pow_of_pos k (by decide)
    have hsM : 2 ^ k < M64 := by
      have h1 : (2 : Nat) ^ k < 2 ^ 64 := Nat.pow_lt_pow_right (by decide) (by omega)
      simpa [M64] using h1
    simp only [hilbertAcc]
    rw [encC_succ, and_pow_eq x k, and_pow_eq y k, ← mul_assoc 3, mul_pow_xor]
    rcases Nat.mod_two_eq_zero_or_one (y / 2 ^ k) with hyb | hyb
    · rcases Nat.mod_two_eq_zero_or_one (x / 2 ^ k) with hxb | hxb
      · rw [hxb, hyb]
        simp only [rotate]
        norm_num
        rw [ih hks y x acc hy hx, encC_mod]
      · rw [hxb, hyb]
        simp only [rotate]
        norm_num [hs.ne']
        rw [sub64_eq_of_le (2 ^ k) 1 Nat.one_le_two_pow hsM,
          ih hks _ _ _ (sub64_lt _ _) (sub64_lt _ _),
          ← encC_mod k (sub64 (2 ^ k - 1) y) (sub64 (2 ^ k - 1) x),
          sub64_mod_pow (by omega) hy, sub64_mod_pow (by omega) hx]
        ring
    · rcases Nat.mod_two_eq_zero_or_one (x / 2 ^ k) with hxb | hxb
      · rw [hxb, hyb]
        simp only [rotate]
        norm_num [hs.ne']
        rw [ih hks x y _ hx hy, encC_mod]
        ring
      · rw [hxb, hyb]
        simp only [rotate]
        norm_num [hs.ne']
        rw [ih hks x y _ hx hy, encC_mod]
        ring

/-! Bit-manipulation helper lemmas. -/

theorem and_three (t : Nat) : t &&& 3 = t % 4 := by
  have h := Nat.and_pow_two_sub_one_eq_mod t 2
  norm_num at h
  exact h

theorem shiftRight_mod_pow (x : Nat) {m j : Nat} (h : j ≤ m) :
    (x % 2 ^ m) >>> j = x >>> j % 2 ^ (m - j) := by
  rw [Nat.shiftRight_eq_div_pow, Nat.shiftRight_eq_div_pow,
    show (2 : Nat) ^ m = 2 ^ j * 2 ^ (m - j) by rw [← pow_add]; congr 1; omega,
    Nat.mod_mul_right_div_self]

theorem and1_mod_pow (x : Nat) {m : Nat} (h : 1 ≤ m) : x % 2 ^ m &&& 1 = x &&& 1 := by
  rw [Nat.and_one_is_mod, Nat.and_one_is_mod,
    Nat.mod_mod_of_dvd x (dvd_pow_self 2 (by omega : m ≠ 0))]

/-! Lemmas about the hilbert.go decode loop. -/

theorem hilbertDecAcc_mod (k : Nat) : ∀ a t x y,
    hilbertDecAcc k a (t % 2 ^ (2 * k)) x y = hilbertDecAcc k a t x y := by
  induction k with
  | zero => intro a t x y; rfl
  | succ k ih =>
    intro a t x y
    rw [show 2 * (k + 1) = 2 * k + 2 by ring]
    simp only [hilbertDecAcc]
    rw [shiftRight_mod_pow t (show 1 ≤ 2 * k + 2 by omega),
      and1_mod_pow (t >>> 1) (show 1 ≤ 2 * k + 2 - 1 by omega),
      and1_mod_pow t (show 1 ≤ 2 * k + 2 by omega),
      shiftRight_mod_pow t (show 2 ≤ 2 * k + 2 by omega),
      show 2 * k + 2 - 2 = 2 * k by omega, ih]

theorem hilbertDecAcc_split (k : Nat) : ∀ a t x y,
    hilbertDecAcc (k + 1) a t x y =
      ((rotate (2 ^ (a + k)) (hilbertDecAcc k a t x y).1 (hilbertDecAcc k a t x y).2
          (t >>> (2 * k) >>> 1 &&& 1) ((t >>> (2 * k) &&& 1) ^^^ (t >>> (2 * k) >>> 1 &&& 1))).1 +
        (t >>> (2 * k) >>> 1 &&& 1) * 2 ^ (a + k),
       (rotate (2 ^ (a + k)) (hilbertDecAcc k a t x y).1 (hilbertDecAcc k a t x y).2
          (t >>> (2 * k) >>> 1 &&& 1) ((t >>> (2 * k) &&& 1) ^^^ (t >>> (2 * k) >>> 1 &&& 1))).2 +
        ((t >>> (2 * k) &&& 1) ^^^ (t >>> (2 * k) >>> 1 &&& 1)) * 2 ^ (a + k)) := by
  induction k with
  | zero =>
    intro a t x y
    simp only [hilbertDecAcc, Nat.mul_zero, Nat.shiftRight_zero, Nat.add_zero]
  | succ k ih =>
    intro a t x y
    rw [show 2 * (k + 1) = 2 + 2 * k by ring, Nat.shiftRight_add,
      show a + (k + 1) = a + 1 + k by ring]
    rw [show hilbertDecAcc (k + 1 + 1) a t x y =
        hilbertDecAcc (k + 1) (a + 1) (t >>> 2)
          ((rotate (2 ^ a) x y (t >>> 1 &&& 1) ((t &&& 1) ^^^ (t >>> 1 &&& 1))).1 +
            (t >>> 1 &&& 1) * 2 ^ a)
          ((rotate (2 ^ a) x y (t >>> 1 &&& 1) ((t &&& 1) ^^^ (t >>> 1 &&& 1))).2 +
            ((t &&& 1) ^^^ (t >>> 1 &&& 1)) * 2 ^ a) from rfl]
    rw [show hilbertDecAcc (k + 1) a t x y =
        hilbertDecAcc k (a + 1) (t >>> 2)
          ((rotate (2 ^ a) x y (t >>> 1 &&& 1) ((t &&& 1) ^^^ (t >>> 1 &&& 1))).1 +
            (t >>> 1 &&& 1) * 2 ^ a)
          ((rotate (2 ^ a) x y (t >>> 1 &&& 1) ((t &&& 1) ^^^ (t >>> 1 &&& 1))).2 +
            ((t &&& 1) ^^^ (t >>> 1 &&& 1)) * 2 ^ a) from rfl]
    exact ih (a + 1) (t >>> 2) _ _

theorem decAcc_encC : ∀ k, k ≤ 63 → ∀ x y, x < 2 ^ k → y < 2 ^ k →
    hilbertDecAcc k 0 (encC k x y) 0 0 = (x, y) := by
  intro k
  induction k with
  | zero =>
    intro _ x y hx hy
    have hx0 : x = 0 := by omega
    have hy0 : y = 0 := by omega
    subst hx0 hy0
    rfl
  | succ k ih =>
    intro hk x y hx hy
    have hks : k ≤ 63 := by omega
    have hs : (0 : Nat) < 2 ^ k := Nat.pos_pow_of_pos k (by decide)
    have hsM : 2 ^ k < M64 := by
      have h1 : (2 : Nat) ^ k < 2 ^ 64 := Nat.pow_lt_pow_right (by decide) (by omega)
      simpa [M64] using h1
    rw [pow_succ] at hx hy
    have hxq := Nat.div_add_mod x (2 ^ k)
    have hyq := Nat.div_add_mod y (2 ^ k)
    have hxr : x % 2 ^ k < 2 ^ k := Nat.mod_lt _ hs
    have hyr : y % 2 ^ k < 2 ^ k := Nat.mod_lt _ hs
    have hxd : x / 2 ^ k < 2 := by
      by_contra hcon
      push_neg at hcon
      have h2 : 2 ^ k * 2 ≤ 2 ^ k * (x / 2 ^ k) := Nat.mul_le_mul_left _ hcon
      omega
    have hyd : y / 2 ^ k < 2 := by
      by_contra hcon
      push_neg at hcon
      have h2 : 2 ^ k * 2 ≤ 2 ^ k * (y / 2 ^ k) := Nat.mul_le_mul_left _ hcon
      omega
    have hdiv : ∀ q e : Nat, e < 2 ^ (2 * k) →
        (q * (2 ^ k * 2 ^ k) + e) >>> (2 * k) = q := by
      intro q e he
      rw [Nat.shiftRight_eq_div_pow, two_pow_two_mul, mul_comm q,
        Nat.mul_add_div (Nat.pos_pow_of_pos _ (by decide)), Nat.div_eq_of_lt he, Nat.add_zero]
    have hmod : ∀ q e : Nat, e < 2 ^ (2 * k) →
        (q * (2 ^ k * 2 ^ k) + e) % 2 ^ (2 * k) = e := by
      intro q e he
      rw [two_pow_two_mul, mul_comm q, Nat.mul_add_mod, Nat.mod_eq_of_lt he]
    have hE : (if y / 2 ^ k % 2 = 1 then encC k (x % 2 ^ k) (y % 2 ^ k)
        else if x / 2 ^ k % 2 = 1 then encC k (2 ^ k - 1 - y % 2 ^ k) (2 ^ k - 1 - x % 2 ^ k)
        else encC k (y % 2 ^ k) (x % 2 ^ k)) < 2 ^ (2 * k) := by
      split
      · exact encC_lt k _ _
      · split
        · exact encC_lt k _ _
        · exact encC_lt k _ _
    have hxv : x / 2 ^ k = 0 ∨ x / 2 ^ k = 1 :=
      Nat.le_one_iff_eq_zero_or_eq_one.mp (Nat.le_of_lt_succ hxd)
    have hyv : y / 2 ^ k = 0 ∨ y / 2 ^ k = 1 :=
      Nat.le_one_iff_eq_zero_or_eq_one.mp (Nat.le_of_lt_succ hyd)
    rw [encC_succ, hilbertDecAcc_split, ← hilbertDecAcc_mod k 0,
      hmod _ _ hE, hdiv _ _ hE]
    rcases hyv with hyv | hyv <;> rcases hxv with hxv | hxv <;>
      simp only [hxv, hyv] at hxq hyq ⊢ <;> norm_num at hxq hyq ⊢
    · rw [ih hks _ _ hyr hxr]
      norm_num [rotate, show (0 : Nat) >>> 1 = 0 from rfl]
      constructor <;> omega
    · rw [ih hks _ _ (show 2 ^ k - 1 - y % 2 ^ k < 2 ^ k by omega)
        (show 2 ^ k - 1 - x % 2 ^ k < 2 ^ k by omega)]
      norm_num [rotate, sub64_eq_of_le (2 ^ k) 1 Nat.one_le_two_pow hsM,
        show (3 : Nat) >>> 1 = 1 from rfl]
      rw [sub64_eq_of_le (2 ^ k - 1) (2 ^ k - 1 - x % 2 ^ k) (by omega) (by omega),
        sub64_eq_of_le (2 ^ k - 1) (2 ^ k - 1 - y % 2 ^ k) (by omega) (by omega)]
      constructor <;> omega
    · rw [ih hks _ _ hxr hyr]
      norm_num [rotate, show (1 : Nat) >>> 1 = 0 from rfl]
      constructor <;> omega
    · rw [ih hks _ _ hxr hyr]
      norm_num [rotate, show (3 : Nat) ^^^ 1 = 2 from rfl, show (2 : Nat) >>> 1 = 1 from rfl]
      constructor <;> omega

theorem encC_decAcc : ∀ k, k ≤ 63 → ∀ t, t < 2 ^ (2 * k) →
    (hilbertDecAcc k 0 t 0 0).1 < 2 ^ k ∧ (hilbertDecAcc k 0 t 0 0).2 < 2 ^ k ∧
    encC k (hilbertDecAcc k 0 t 0 0).1 (hilbertDecAcc k 0 t 0 0).2 = t := by
  intro k
  induction k with
  | zero =>
    intro _ t ht
    have ht0 : t = 0 := by
      norm_num at ht
      omega
    subst ht0
    exact ⟨by decide, by decide, rfl⟩
  | succ k ih =>
    intro hk t ht
    have hks : k ≤ 63 := by omega
    have hs : (0 : Nat) < 2 ^ k := Nat.pos_pow_of_pos k (by decide)
    have hs2 : (0 : Nat) < 2 ^ (2 * k) := Nat.pos_pow_of_pos _ (by decide)
    have hsM : 2 ^ k < M64 := by
      have h1 : (2 : Nat) ^ k < 2 ^ 64 := Nat.pow_lt_pow_right (by decide) (by omega)
      simpa [M64] using h1
    have hpow : (2 : Nat) ^ (2 * (k + 1)) = 4 * 2 ^ (2 * k) := by
      rw [show 2 * (k + 1) = 2 * k + 2 by ring, pow_add]
      ring
    have hpow1 : (2 : Nat) ^ (k + 1) = 2 ^ k * 2 := pow_succ 2 k
    rw [hpow] at ht
    have hq : t / 2 ^ (2 * k) < 4 := (Nat.div_lt_iff_lt_mul hs2).2 (by omega)
    have htq := Nat.div_add_mod t (2 ^ (2 * k))
    obtain ⟨h1, h2, h3⟩ := ih hks (t % 2 ^ (2 * k)) (Nat.mod_lt _ hs2)
    have d1 : ∀ r : Nat, r < 2 ^ k → (r + 2 ^ k) / 2 ^ k = 1 := by
      intro r hr
      rw [Nat.add_div_right _ hs, Nat.div_eq_of_lt hr]
    have d2 : ∀ r : Nat, r < 2 ^ k → (r + 2 ^ k) % 2 ^ k = r := by
      intro r hr
      rw [Nat.add_mod_right, Nat.mod_eq_of_lt hr]
    have hqv : t / 2 ^ (2 * k) = 0 ∨ t / 2 ^ (2 * k) = 1 ∨
        t / 2 ^ (2 * k) = 2 ∨ t / 2 ^ (2 * k) = 3 := by
      rcases Nat.lt_or_ge (t / 2 ^ (2 * k)) 2 with h' | h'
      · rcases Nat.lt_or_ge (t / 2 ^ (2 * k)) 1 with h'' | h''
        · exact Or.inl (Nat.lt_one_iff.mp h'')
        · exact Or.inr (Or.inl (Nat.le_antisymm (Nat.le_of_lt_succ h') h''))
      · rcases Nat.lt_or_ge (t / 2 ^ (2 * k)) 3 with h'' | h''
        · exact Or.inr (Or.inr (Or.inl (Nat.le_antisymm (Nat.le_of_lt_succ h'') h')))
        · exact Or.inr (Or.inr (Or.inr (Nat.le_antisymm (Nat.le_of_lt_succ hq) h'')))
    rw [hilbertDecAcc_split, ← hilbertDecAcc_mod k 0, Nat.shiftRight_eq_div_pow t (2 * k)]
    rcases hqv with hqv | hqv | hqv | hqv <;> rw [hqv] at htq ⊢ <;>
      norm_num [rotate, show (0 : Nat) >>> 1 = 0 from rfl, show (1 : Nat) >>> 1 = 0 from rfl,
        show (2 : Nat) >>> 1 = 1 from rfl, show (3 : Nat) >>> 1 = 1 from rfl,
        sub64_eq_of_le (2 ^ k) 1 Nat.one_le_two_pow hsM]
    · refine ⟨by omega, by omega, ?_⟩
      rw [encC_succ, Nat.div_eq_of_lt h2, Nat.div_eq_of_lt h1,
        Nat.mod_eq_of_lt h2, Nat.mod_eq_of_lt h1]
      norm_num [h3]
      omega
    · refine ⟨by omega, by omega, ?_⟩
      rw [encC_succ, Nat.div_eq_of_lt h1, d1 _ h2, d2 _ h2, Nat.mod_eq_of_lt h1]
      norm_num
      rw [h3]
      have := two_pow_two_mul k
      omega
    · refine ⟨by omega, by omega, ?_⟩
      rw [encC_succ, d1 _ h1, d2 _ h1, d1 _ h2, d2 _ h2]
      norm_num [show (3 : Nat) ^^^ 1 = 2 from rfl]
      rw [h3]
      have := two_pow_two_mul k
      omega
    · rw [sub64_eq_of_le (2 ^ k - 1) (hilbertDecAcc k 0 (t % 2 ^ (2 * k)) 0 0).2
          (by omega) (by omega),
        sub64_eq_of_le (2 ^ k - 1) (hilbertDecAcc k 0 (t % 2 ^ (2 * k)) 0 0).1
          (by omega) (by omega)]
      refine ⟨by omega, by omega, ?_⟩
      rw [encC_succ,
        d1 _ (show 2 ^ k - 1 - (hilbertDecAcc k 0 (t % 2 ^ (2 * k)) 0 0).2 < 2 ^ k by omega),
        d2 _ (show 2 ^ k - 1 - (hilbertDecAcc k 0 (t % 2 ^ (2 * k)) 0 0).2 < 2 ^ k by omega),
        Nat.div_eq_of_lt
          (show 2 ^ k - 1 - (hilbertDecAcc k 0 (t % 2 ^ (2 * k)) 0 0).1 < 2 ^ k by omega),
        Nat.mod_eq_of_lt
          (show 2 ^ k - 1 - (hilbertDecAcc k 0 (t % 2 ^ (2 * k)) 0 0).1 < 2 ^ k by omega)]
      norm_num
      rw [show 2 ^ k - 1 - (2 ^ k - 1 - (hilbertDecAcc k 0 (t % 2 ^ (2 * k)) 0 0).1) =
          (hilbertDecAcc k 0 (t % 2 ^ (2 * k)) 0 0).1 by omega,
        show 2 ^ k - 1 - (2 ^ k - 1 - (hilbertDecAcc k 0 (t % 2 ^ (2 * k)) 0 0).2) =
          (hilbertDecAcc k 0 (t % 2 ^ (2 * k)) 0 0).2 by omega, h3]
      have := two_pow_two_mul k
      omega

/-! Bit length and zoom extraction. -/

theorem size_div2_add_one {n : Nat} (h : n ≠ 0) : Nat.size n = Nat.size (n / 2) + 1 := by
  conv_lhs => rw [← Nat.bit_decomp n]
  rw [Nat.size_bit, Nat.div2_val]
  rw [Nat.bit_decomp]
  exact h

theorem len64Acc_eq_size : ∀ f n, n < 2 ^ f → len64Acc f n = Nat.size n := by
  intro f
  induction f with
  | zero =>
    intro n hn
    have h0 : n = 0 := by
      norm_num at hn
      omega
    subst h0
    simp [len64Acc]
  | succ f ih =>
    intro n hn
    by_cases h0 : n = 0
    · subst h0
      simp [len64Acc]
    · have hp : (2 : Nat) ^ (f + 1) = 2 ^ f * 2 := pow_succ 2 f
      have hd : n / 2 < 2 ^ f := by omega
      rw [show len64Acc (f + 1) n = len64Acc f (n / 2) + 1 by simp [len64Acc, h0],
        ih _ hd, ← size_div2_add_one h0]

theorem zoom_eq (z e : Nat) (hz : z ≤ 26) (he : e < 2 ^ (2 * z)) :
    ZoomFromHilbertTileID ((2 ^ (2 * z) - 1) / 3 + e) = z := by
  unfold ZoomFromHilbertTileID len64
  have h3 := three_mul_pfx z
  have hp : (0 : Nat) < 2 ^ (2 * z) := Nat.pos_pow_of_pos _ (by decide)
  have hz2 : (2 : Nat) ^ (2 * z) ≤ 2 ^ 52 := Nat.pow_le_pow_right (by decide) (by omega)
  have h52 : (2 : Nat) ^ 52 = 4503599627370496 := by norm_num
  have hM : M64 = 2 ^ 64 := rfl
  have h64 : (2 : Nat) ^ 64 = 18446744073709551616 := by norm_num
  have hc : 3 * ((2 ^ (2 * z) - 1) / 3 + e) + 1 = 2 ^ (2 * z) + 3 * e := by omega
  rw [hc, Nat.mod_eq_of_lt (by omega), len64Acc_eq_size _ _ (by omega)]
  have hlo : 2 * z < Nat.size (2 ^ (2 * z) + 3 * e) := Nat.lt_size.2 (by omega)
  have hq : (2 : Nat) ^ (2 * z + 2) = 4 * 2 ^ (2 * z) := by
    rw [pow_add]
    ring
  have hhi : Nat.size (2 ^ (2 * z) + 3 * e) ≤ 2 * z + 2 := Nat.size_le.2 (by omega)
  omega

/-- C1: for every `(z, x, y)` with `z ≤ 26`, `x < 2^z`, `y < 2^z`, the
encoder `ZXYToHilbertTileID` succeeds, and `ZXYFromHilbertTileID` applied
to its result succeeds and returns exactly `(z, x, y)`. -/
theorem C1_hilbert_roundtrip (z x y : Nat) (hz : z ≤ 26) (hx : x < 2 ^ z) (hy : y < 2 ^ z) :
    ∃ i, ZXYToHilbertTileID z x y = some i ∧ ZXYFromHilbertTileID i = some (z, x, y) := by
  have hzpow : (2 : Nat) ^ z ≤ 2 ^ 26 := Nat.pow_le_pow_right (by decide) hz
  have h26 : (2 : Nat) ^ 26 = 67108864 := by norm_num
  have hM : M64 = 2 ^ 64 := rfl
  have h64 : (2 : Nat) ^ 64 = 18446744073709551616 := by norm_num
  have hxM : x < M64 := by omega
  have hyM : y < M64 := by omega
  have he := encC_lt z x y
  have hz2 : (2 : Nat) ^ (2 * z) ≤ 2 ^ 52 := Nat.pow_le_pow_right (by decide) (by omega)
  have h52 : (2 : Nat) ^ 52 = 4503599627370496 := by norm_num
  have hp : (0 : Nat) < 2 ^ (2 * z) := Nat.pos_pow_of_pos _ (by decide)
  have h3 := three_mul_pfx z
  refine ⟨(2 ^ (2 * z) - 1) / 3 + encC z x y, ?_, ?_⟩
  · unfold ZXYToHilbertTileID
    rw [if_neg (show ¬ z > MaxZ by unfold MaxZ; omega),
      if_neg (show ¬ (2 ^ z ≤ x ∨ 2 ^ z ≤ y) by push_neg; exact ⟨hx, hy⟩),
      hilbertAcc_eq z (by omega) x y _ hxM hyM, two_pow_two_mul]
  · have hzoom := zoom_eq z (encC z x y) hz he
    have hinv : ¬ invalidTileID ≤ (2 ^ (2 * z) - 1) / 3 + encC z x y := by
      have : invalidTileID = 0x5555555555555555 := rfl
      omega
    unfold ZXYFromHilbertTileID
    rw [if_neg hinv]
    simp only [hzoom]
    rw [if_neg (show ¬ z > MaxZ by unfold MaxZ; omega),
      sub64_eq_of_le _ _ (Nat.le_add_right _ _) (by omega), Nat.add_sub_cancel_left,
      decAcc_encC z (by omega) x y hx hy]

theorem C1_hilbert_roundtrip_witness : ∃ i, ZXYToHilbertTileID 10 205 342 = some i ∧
    ZXYFromHilbertTileID i = some (10, 205, 342) :=
  C1_hilbert_roundtrip 10 205 342 (by decide) (by decide) (by decide)

/-! Helper lemmas for the lookup-table codec of fast_hilbert.go. -/

theorem shift_and1 (x k : Nat) : x >>> k &&& 1 = x / 2 ^ k % 2 := by
  rw [Nat.shiftRight_eq_div_pow, Nat.and_one_is_mod]

theorem and3_lt (x : Nat) : x &&& 3 < 4 := by
  rw [and_three]
  omega

theorem row_or_eq (st xb yb : Nat) (hst : st < 4) (hxb : xb < 2) (hyb : yb < 2) :
    st <<< 3 ||| xb <<< 2 ||| yb <<< 1 = st * 8 + xb * 4 + yb * 2 := by
  interval_cases st <;> interval_cases xb <;> interval_cases yb <;> decide

theorem shiftLeft_two_or_eq (res d : Nat) (hd : d < 4) : res <<< 2 ||| d = res * 4 + d := by
  have h := Nat.mul_add_lt_is_or (show d < 2 ^ 2 by omega) res
  rw [Nat.shiftLeft_eq, mul_comm res (2 ^ 2), ← h]

theorem mod_pow_succ_decomp (x k : Nat) :
    x % 2 ^ (k + 1) = x / 2 ^ k % 2 * 2 ^ k + x % 2 ^ k := by
  have h := Nat.div_add_mod (x % 2 ^ (k + 1)) (2 ^ k)
  rw [mod_pow_succ_div, mod_pow_mod x (Nat.le_succ k), mul_comm] at h
  exact h.symm

theorem pow_add_div (r k : Nat) (hr : r < 2 ^ k) : (2 ^ k + r) / 2 ^ k = 1 := by
  rw [Nat.add_comm, Nat.add_div_right _ (Nat.pos_pow_of_pos k (by decide)),
    Nat.div_eq_of_lt hr]

theorem pow_add_mod (r k : Nat) (hr : r < 2 ^ k) : (2 ^ k + r) % 2 ^ k = r := by
  rw [Nat.add_comm, Nat.add_mod_right, Nat.mod_eq_of_lt hr]

/-- One step of the lookup-table encoding of fast_hilbert.go agrees with one
level of the clean encoder, with the 2-bit state interpreted through
`applyT`. -/
theorem applyT_step (k st xb yb xl yl : Nat) (hst : st < 4) (hxb : xb < 2) (hyb : yb < 2)
    (hxl : xl < 2 ^ k) (hyl : yl < 2 ^ k) :
    encC (k + 1) (applyT st (2 ^ (k + 1)) (xb * 2 ^ k + xl) (yb * 2 ^ k + yl)).1
        (applyT st (2 ^ (k + 1)) (xb * 2 ^ k + xl) (yb * 2 ^ k + yl)).2 =
      (lut1 >>> (st * 8 + xb * 4 + yb * 2) &&& 3) * 2 ^ (2 * k) +
        encC k (applyT (lut2 >>> (st * 8 + xb * 4 + yb * 2) &&& 3) (2 ^ k) xl yl).1
          (applyT (lut2 >>> (st * 8 + xb * 4 + yb * 2) &&& 3) (2 ^ k) xl yl).2 := by
  have hs : (0 : Nat) < 2 ^ k := Nat.pos_pow_of_pos k (by decide)
  have hm : (2 : Nat) ^ (k + 1) = 2 ^ k * 2 := pow_succ 2 k
  interval_cases st <;> interval_cases xb <;> interval_cases yb
  · -- st 0, bits (0,0): digit 0, next state 1 (swap)
    norm_num [applyT]
    rw [show lut1 &&& 3 = 0 from by decide, show lut2 &&& 3 = 1 from by decide]
    norm_num [applyT]
    rw [encC_succ, two_pow_two_mul, Nat.div_eq_of_lt hxl, Nat.div_eq_of_lt hyl,
      Nat.mod_eq_of_lt hxl, Nat.mod_eq_of_lt hyl]
    norm_num
  · -- st 0, bits (0,1): digit 1, next state 0
    norm_num [applyT]
    rw [show lut1 >>> 2 &&& 3 = 1 from by decide, show lut2 >>> 2 &&& 3 = 0 from by decide]
    norm_num [applyT]
    rw [encC_succ, two_pow_two_mul, Nat.div_eq_of_lt hxl, Nat.mod_eq_of_lt hxl,
      pow_add_div yl k hyl, pow_add_mod yl k hyl]
    norm_num
  · -- st 0, bits (1,0): digit 3, next state 3 (anti-transpose)
    norm_num [applyT]
    rw [show lut1 >>> 4 &&& 3 = 3 from by decide, show lut2 >>> 4 &&& 3 = 3 from by decide]
    norm_num [applyT]
    rw [encC_succ, two_pow_two_mul, pow_add_div xl k hxl, pow_add_mod xl k hxl,
      Nat.div_eq_of_lt hyl, Nat.mod_eq_of_lt hyl]
    norm_num
  · -- st 0, bits (1,1): digit 2, next state 0
    norm_num [applyT]
    rw [show lut1 >>> 6 &&& 3 = 2 from by decide, show lut2 >>> 6 &&& 3 = 0 from by decide]
    norm_num [applyT]
    rw [encC_succ, two_pow_two_mul, pow_add_div xl k hxl, pow_add_mod xl k hxl,
      pow_add_div yl k hyl, pow_add_mod yl k hyl]
    norm_num [show (3 : Nat) ^^^ 1 = 2 from rfl]
  · -- st 1 (swap), bits (0,0): digit 0, next state 0
    norm_num [applyT]
    rw [show lut1 >>> 8 &&& 3 = 0 from by decide, show lut2 >>> 8 &&& 3 = 0 from by decide]
    norm_num [applyT]
    rw [encC_succ, two_pow_two_mul, Nat.div_eq_of_lt hxl, Nat.div_eq_of_lt hyl,
      Nat.mod_eq_of_lt hxl, Nat.mod_eq_of_lt hyl]
    norm_num
  · -- st 1, bits (0,1): digit 3, next state 2 (rotation by 180)
    norm_num [applyT]
    rw [show lut1 >>> 10 &&& 3 = 3 from by decide, show lut2 >>> 10 &&& 3 = 2 from by decide]
    norm_num [applyT]
    rw [encC_succ, two_pow_two_mul, pow_add_div yl k hyl, pow_add_mod yl k hyl,
      Nat.div_eq_of_lt hxl, Nat.mod_eq_of_lt hxl]
    norm_num
  · -- st 1, bits (1,0): digit 1, next state 1
    norm_num [applyT]
    rw [show lut1 >>> 12 &&& 3 = 1 from by decide, show lut2 >>> 12 &&& 3 = 1 from by decide]
    norm_num [applyT]
    rw [encC_succ, two_pow_two_mul, Nat.div_eq_of_lt hyl, Nat.mod_eq_of_lt hyl,
      pow_add_div xl k hxl, pow_add_mod xl k hxl]
    norm_num
  · -- st 1, bits (1,1): digit 2, next state 1
    norm_num [applyT]
    rw [show lut1 >>> 14 &&& 3 = 2 from by decide, show lut2 >>> 14 &&& 3 = 1 from by decide]
    norm_num [applyT]
    rw [encC_succ, two_pow_two_mul, pow_add_div xl k hxl, pow_add_mod xl k hxl,
      pow_add_div yl k hyl, pow_add_mod yl k hyl]
    norm_num [show (3 : Nat) ^^^ 1 = 2 from rfl]
  · -- st 2 (rotation by 180), bits (0,0): digit 2, next state 2
    norm_num [applyT]
    rw [show lut1 >>> 16 &&& 3 = 2 from by decide, show lut2 >>> 16 &&& 3 = 2 from by decide]
    norm_num [applyT]
    rw [show 2 ^ (k + 1) - 1 - xl = 2 ^ k + (2 ^ k - 1 - xl) by omega,
      show 2 ^ (k + 1) - 1 - yl = 2 ^ k + (2 ^ k - 1 - yl) by omega,
      encC_succ, two_pow_two_mul,
      pow_add_div _ k (by omega), pow_add_mod _ k (by omega),
      pow_add_div _ k (by omega), pow_add_mod _ k (by omega)]
    norm_num [show (3 : Nat) ^^^ 1 = 2 from rfl]
  · -- st 2, bits (0,1): digit 3, next state 1
    norm_num [applyT]
    rw [show lut1 >>> 18 &&& 3 = 3 from by decide, show lut2 >>> 18 &&& 3 = 1 from by decide]
    norm_num [applyT]
    rw [show 2 ^ (k + 1) - 1 - xl = 2 ^ k + (2 ^ k - 1 - xl) by omega,
      show 2 ^ (k + 1) - 1 - (2 ^ k + yl) = 2 ^ k - 1 - yl by omega,
      encC_succ, two_pow_two_mul,
      pow_add_div _ k (by omega), pow_add_mod _ k (by omega),
      Nat.div_eq_of_lt (show 2 ^ k - 1 - yl < 2 ^ k by omega),
      Nat.mod_eq_of_lt (show 2 ^ k - 1 - yl < 2 ^ k by omega)]
    norm_num
    rw [show 2 ^ k - 1 - (2 ^ k - 1 - yl) = yl by omega,
      show 2 ^ k - 1 - (2 ^ k - 1 - xl) = xl by omega]
  · -- st 2, bits (1,0): digit 1, next state 2
    norm_num [applyT]
    rw [show lut1 >>> 20 &&& 3 = 1 from by decide, show lut2 >>> 20 &&& 3 = 2 from by decide]
    norm_num [applyT]
    rw [show 2 ^ (k + 1) - 1 - (2 ^ k + xl) = 2 ^ k - 1 - xl by omega,
      show 2 ^ (k + 1) - 1 - yl = 2 ^ k + (2 ^ k - 1 - yl) by omega,
      encC_succ, two_pow_two_mul,
      Nat.div_eq_of_lt (show 2 ^ k - 1 - xl < 2 ^ k by omega),
      Nat.mod_eq_of_lt (show 2 ^ k - 1 - xl < 2 ^ k by omega),
      pow_add_div _ k (by omega), pow_add_mod _ k (by omega)]
    norm_num
  · -- st 2, bits (1,1): digit 0, next state 3
    norm_num [applyT]
    rw [show lut1 >>> 22 &&& 3 = 0 from by decide, show lut2 >>> 22 &&& 3 = 3 from by decide]
    norm_num [applyT]
    rw [show 2 ^ (k + 1) - 1 - (2 ^ k + xl) = 2 ^ k - 1 - xl by omega,
      show 2 ^ (k + 1) - 1 - (2 ^ k + yl) = 2 ^ k - 1 - yl by omega,
      encC_succ, two_pow_two_mul,
      Nat.div_eq_of_lt (show 2 ^ k - 1 - xl < 2 ^ k by omega),
      Nat.mod_eq_of_lt (show 2 ^ k - 1 - xl < 2 ^ k by omega),
      Nat.div_eq_of_lt (show 2 ^ k - 1 - yl < 2 ^ k by omega),
      Nat.mod_eq_of_lt (show 2 ^ k - 1 - yl < 2 ^ k by omega)]
    norm_num
  · -- st 3 (anti-transpose), bits (0,0): digit 2, next state 3
    norm_num [applyT]
    rw [show lut1 >>> 24 &&& 3 = 2 from by decide, show lut2 >>> 24 &&& 3 = 3 from by decide]
    norm_num [applyT]
    rw [show 2 ^ (k + 1) - 1 - xl = 2 ^ k + (2 ^ k - 1 - xl) by omega,
      show 2 ^ (k + 1) - 1 - yl = 2 ^ k + (2 ^ k - 1 - yl) by omega,
      encC_succ, two_pow_two_mul,
      pow_add_div _ k (by omega), pow_add_mod _ k (by omega),
      pow_add_div _ k (by omega), pow_add_mod _ k (by omega)]
    norm_num [show (3 : Nat) ^^^ 1 = 2 from rfl]
  · -- st 3, bits (0,1): digit 1, next state 3
    norm_num [applyT]
    rw [show lut1 >>> 26 &&& 3 = 1 from by decide, show lut2 >>> 26 &&& 3 = 3 from by decide]
    norm_num [applyT]
    rw [show 2 ^ (k + 1) - 1 - (2 ^ k + yl) = 2 ^ k - 1 - yl by omega,
      show 2 ^ (k + 1) - 1 - xl = 2 ^ k + (2 ^ k - 1 - xl) by omega,
      encC_succ, two_pow_two_mul,
      Nat.div_eq_of_lt (show 2 ^ k - 1 - yl < 2 ^ k by omega),
      Nat.mod_eq_of_lt (show 2 ^ k - 1 - yl < 2 ^ k by omega),
      pow_add_div _ k (by omega), pow_add_mod _ k (by omega)]
    norm_num
  · -- st 3, bits (1,0): digit 3, next state 0
    norm_num [applyT]
    rw [show lut1 >>> 28 &&& 3 = 3 from by decide, show lut2 >>> 28 &&& 3 = 0 from by decide]
    norm_num [applyT]
    rw [show 2 ^ (k + 1) - 1 - yl = 2 ^ k + (2 ^ k - 1 - yl) by omega,
      show 2 ^ (k + 1) - 1 - (2 ^ k + xl) = 2 ^ k - 1 - xl by omega,
      encC_succ, two_pow_two_mul,
      pow_add_div _ k (by omega), pow_add_mod _ k (by omega),
      Nat.div_eq_of_lt (show 2 ^ k - 1 - xl < 2 ^ k by omega),
      Nat.mod_eq_of_lt (show 2 ^ k - 1 - xl < 2 ^ k by omega)]
    norm_num
    rw [show 2 ^ k - 1 - (2 ^ k - 1 - xl) = xl by omega,
      show 2 ^ k - 1 - (2 ^ k - 1 - yl) = yl by omega]
  · -- st 3, bits (1,1): digit 0, next state 2
    norm_num [applyT]
    rw [show lut1 >>> 30 &&& 3 = 0 from by decide, show lut2 >>> 30 &&& 3 = 2 from by decide]
    norm_num [applyT]
    rw [show 2 ^ (k + 1) - 1 - (2 ^ k + yl) = 2 ^ k - 1 - yl by omega,
      show 2 ^ (k + 1) - 1 - (2 ^ k + xl) = 2 ^ k - 1 - xl by omega,
      encC_succ, two_pow_two_mul,
      Nat.div_eq_of_lt (show 2 ^ k - 1 - yl < 2 ^ k by omega),
      Nat.mod_eq_of_lt (show 2 ^ k - 1 - yl < 2 ^ k by omega),
      Nat.div_eq_of_lt (show 2 ^ k - 1 - xl < 2 ^ k by omega),
      Nat.mod_eq_of_lt (show 2 ^ k - 1 - xl < 2 ^ k by omega)]
    norm_num

theorem mul_pow_add_shiftRight (q e k : Nat) (he : e < 2 ^ (2 * k)) :
    (q * 2 ^ (2 * k) + e) >>> (2 * k) = q := by
  rw [Nat.shiftRight_eq_div_pow, mul_comm q,
    Nat.mul_add_div (Nat.pos_pow_of_pos _ (by decide)), Nat.div_eq_of_lt he, Nat.add_zero]

theorem mul_pow_add_mod (q e k : Nat) (he : e < 2 ^ (2 * k)) :
    (q * 2 ^ (2 * k) + e) % 2 ^ (2 * k) = e := by
  rw [mul_comm q, Nat.mul_add_mod, Nat.mod_eq_of_lt he]

theorem and3_and3 (x : Nat) : x &&& 3 &&& 3 = x &&& 3 := by
  rw [Nat.and_assoc, show (3 : Nat) &&& 3 = 3 from by decide]

theorem and3_mod4 (x : Nat) : x % 4 &&& 3 = x &&& 3 := by
  rw [and_three, and_three, Nat.mod_mod_of_dvd x (dvd_refl 4)]

theorem shiftLeft_one_or_eq (a b : Nat) (hb : b < 2) : a <<< 1 ||| b = a * 2 + b := by
  have h := Nat.mul_add_lt_is_or (show b < 2 ^ 1 by omega) a
  rw [Nat.shiftLeft_eq, mul_comm a (2 ^ 1), ← h]

/-- The fast_hilbert.go encoder loop computes the clean Hilbert index of the
state-transformed point. -/
theorem fastEncAcc_eq : ∀ k x y st res, st < 4 →
    fastEncAcc k x y st res =
      res * 2 ^ (2 * k) +
        encC k (applyT st (2 ^ k) (x % 2 ^ k) (y % 2 ^ k)).1
          (applyT st (2 ^ k) (x % 2 ^ k) (y % 2 ^ k)).2 := by
  intro k
  induction k with
  | zero =>
    intro x y st res hst
    simp [fastEncAcc, encC]
  | succ k ih =>
    intro x y st res hst
    have hs : (0 : Nat) < 2 ^ k := Nat.pos_pow_of_pos k (by decide)
    have hxb : x / 2 ^ k % 2 < 2 := Nat.mod_lt _ (by decide)
    have hyb : y / 2 ^ k % 2 < 2 := Nat.mod_lt _ (by decide)
    have hpow : (2 : Nat) ^ (2 * (k + 1)) = 4 * 2 ^ (2 * k) := by
      rw [show 2 * (k + 1) = 2 * k + 2 by ring, pow_add]
      ring
    simp only [fastEncAcc]
    rw [shift_and1 x k, shift_and1 y k, row_or_eq st _ _ hst hxb hyb,
      ih x y _ _ (and3_lt _), shiftLeft_two_or_eq res _ (and3_lt _),
      mod_pow_succ_decomp x k, mod_pow_succ_decomp y k,
      applyT_step k st _ _ _ _ hst hxb hyb (Nat.mod_lt x hs) (Nat.mod_lt y hs), hpow]
    ring

theorem fastDecAcc_mod (k : Nat) : ∀ st c x y,
    fastDecAcc k st (c % 2 ^ (2 * k)) x y = fastDecAcc k st c x y := by
  induction k with
  | zero => intro st c x y; rfl
  | succ k ih =>
    intro st c x y
    rw [show 2 * (k + 1) = 2 * k + 2 by ring]
    simp only [fastDecAcc]
    rw [shiftRight_mod_pow c (show 2 * k ≤ 2 * k + 2 by omega),
      show 2 * k + 2 - 2 * k = 2 by omega, show (2 : Nat) ^ 2 = 4 from by norm_num,
      and3_mod4]
    rw [← ih _ (c % 2 ^ (2 * k + 2)) _ _, mod_pow_mod c (show 2 * k ≤ 2 * k + 2 by omega),
      ih]

theorem fastZoomAcc_eq : ∀ fuel w z c, w ≤ z → z ≤ 26 → z - w ≤ fuel →
    2 ^ (2 * z) ≤ c → c < 2 ^ (2 * z + 2) → fastZoomAcc fuel w c = z := by
  intro fuel
  induction fuel with
  | zero =>
    intro w z c h1 h2 h3 _ _
    have hwz : w = z := by omega
    subst hwz
    rfl
  | succ f ih =>
    intro w z c h1 h2 h3 h4 h5
    have hM : M64 = 2 ^ 64 := rfl
    simp only [fastZoomAcc]
    by_cases hw : w = z
    · subst hw
      rw [if_neg]
      rw [Nat.mod_eq_of_lt (by rw [hM]; exact Nat.pow_lt_pow_right (by decide) (by omega))]
      rw [show 2 * (w + 1) = 2 * w + 2 by ring]
      omega
    · have hlt : w < z := lt_of_le_of_ne h1 hw
      rw [if_pos]
      · exact ih (w + 1) z c (by omega) h2 (by omega) h4 h5
      · rw [Nat.mod_eq_of_lt (by rw [hM]; exact Nat.pow_lt_pow_right (by decide) (by omega))]
        calc 2 ^ (2 * (w + 1)) ≤ 2 ^ (2 * z) := Nat.pow_le_pow_right (by decide) (by omega)
          _ ≤ c := h4

/-- The fast_hilbert.go decoder loop inverts the clean encoder on the
state-transformed point, appending the recovered bits to the accumulators. -/
theorem fastDecAcc_eq : ∀ k, k ≤ 63 → ∀ st X Y xa ya, st < 4 → X < 2 ^ k → Y < 2 ^ k →
    fastDecAcc k st (encC k (applyT st (2 ^ k) X Y).1 (applyT st (2 ^ k) X Y).2) xa ya =
      (xa * 2 ^ k + X, ya * 2 ^ k + Y) := by
  intro k
  induction k with
  | zero =>
    intro _ st X Y xa ya hst hX hY
    have hX0 : X = 0 := by omega
    have hY0 : Y = 0 := by omega
    subst hX0 hY0
    simp [fastDecAcc]
  | succ k ih =>
    intro hk st X Y xa ya hst hX hY
    have hks : k ≤ 63 := by omega
    have hs : (0 : Nat) < 2 ^ k := Nat.pos_pow_of_pos k (by decide)
    have hm : (2 : Nat) ^ (k + 1) = 2 ^ k * 2 := pow_succ 2 k
    obtain ⟨Xb, Xl, hXb, hXl, rfl⟩ : ∃ b l, b < 2 ∧ l < 2 ^ k ∧ X = b * 2 ^ k + l := by
      refine ⟨X / 2 ^ k % 2, X % 2 ^ k, Nat.mod_lt _ (by decide), Nat.mod_lt _ hs, ?_⟩
      have hd : X / 2 ^ k < 2 := by
        by_contra hcon
        push_neg at hcon
        have h2 : 2 ^ k * 2 ≤ 2 ^ k * (X / 2 ^ k) := Nat.mul_le_mul_left _ hcon
        have := Nat.div_add_mod X (2 ^ k)
        omega
      rw [Nat.mod_eq_of_lt hd, mul_comm]
      exact (Nat.div_add_mod X (2 ^ k)).symm
    obtain ⟨Yb, Yl, hYb, hYl, rfl⟩ : ∃ b l, b < 2 ∧ l < 2 ^ k ∧ Y = b * 2 ^ k + l := by
      refine ⟨Y / 2 ^ k % 2, Y % 2 ^ k, Nat.mod_lt _ (by decide), Nat.mod_lt _ hs, ?_⟩
      have hd : Y / 2 ^ k < 2 := by
        by_contra hcon
        push_neg at hcon
        have h2 : 2 ^ k * 2 ≤ 2 ^ k * (Y / 2 ^ k) := Nat.mul_le_mul_left _ hcon
        have := Nat.div_add_mod Y (2 ^ k)
        omega
      rw [Nat.mod_eq_of_lt hd, mul_comm]
      exact (Nat.div_add_mod Y (2 ^ k)).symm
    simp only [fastDecAcc]
    rw [applyT_step k st Xb Yb Xl Yl hst hXb hYb hXl hYl,
      mul_pow_add_shiftRight _ _ k (encC_lt k _ _), and3_and3,
      shiftLeft_two_or_eq st _ (and3_lt _),
      ← fastDecAcc_mod k, mul_pow_add_mod _ _ k (encC_lt k _ _)]
    interval_cases st <;> interval_cases Xb <;> interval_cases Yb
    · norm_num
      rw [show lut1 &&& 3 = 0 from by decide, show lut2 &&& 3 = 1 from by decide]
      norm_num
      rw [show lutX % 2 = 0 from by decide, show lutY % 2 = 0 from by decide,
        show lutState &&& 3 = 1 from by decide,
        shiftLeft_one_or_eq xa 0 (by decide), shiftLeft_one_or_eq ya 0 (by decide),
        ih hks 1 Xl Yl _ _ (by decide) hXl hYl, Prod.mk.injEq]
      constructor <;> (rw [hm]; ring)
    · norm_num
      rw [show lut1 >>> 2 &&& 3 = 1 from by decide, show lut2 >>> 2 &&& 3 = 0 from by decide]
      norm_num
      rw [show lutX >>> 1 % 2 = 0 from by decide, show lutY >>> 1 % 2 = 1 from by decide,
        show lutState >>> 2 &&& 3 = 0 from by decide,
        shiftLeft_one_or_eq xa 0 (by decide), shiftLeft_one_or_eq ya 1 (by decide),
        ih hks 0 Xl Yl _ _ (by decide) hXl hYl, Prod.mk.injEq]
      constructor <;> (rw [hm]; ring)
    · norm_num
      rw [show lut1 >>> 4 &&& 3 = 3 from by decide, show lut2 >>> 4 &&& 3 = 3 from by decide]
      norm_num
      rw [show lutX >>> 3 % 2 = 1 from by decide, show lutY >>> 3 % 2 = 0 from by decide,
        show lutState >>> 6 &&& 3 = 3 from by decide,
        shiftLeft_one_or_eq xa 1 (by decide), shiftLeft_one_or_eq ya 0 (by decide),
        ih hks 3 Xl Yl _ _ (by decide) hXl hYl, Prod.mk.injEq]
      constructor <;> (rw [hm]; ring)
    · norm_num
      rw [show lut1 >>> 6 &&& 3 = 2 from by decide, show lut2 >>> 6 &&& 3 = 0 from by decide]
      norm_num
      rw [show lutX >>> 2 % 2 = 1 from by decide, show lutY >>> 2 % 2 = 1 from by decide,
        show lutState >>> 4 &&& 3 = 0 from by decide,
        shiftLeft_one_or_eq xa 1 (by decide), shiftLeft_one_or_eq ya 1 (by decide),
        ih hks 0 Xl Yl _ _ (by decide) hXl hYl, Prod.mk.injEq]
      constructor <;> (rw [hm]; ring)
    · norm_num
      rw [show lut1 >>> 8 &&& 3 = 0 from by decide, show lut2 >>> 8 &&& 3 = 0 from by decide]
      norm_num
      rw [show lutX >>> 4 % 2 = 0 from by decide, show lutY >>> 4 % 2 = 0 from by decide,
        show lutState >>> 8 &&& 3 = 0 from by decide,
        shiftLeft_one_or_eq xa 0 (by decide), shiftLeft_one_or_eq ya 0 (by decide),
        ih hks 0 Xl Yl _ _ (by decide) hXl hYl, Prod.mk.injEq]
      constructor <;> (rw [hm]; ring)
    · norm_num
      rw [show lut1 >>> 10 &&& 3 = 3 from by decide, show lut2 >>> 10 &&& 3 = 2 from by decide]
      norm_num
      rw [show lutX >>> 7 % 2 = 0 from by decide, show lutY >>> 7 % 2 = 1 from by decide,
        show lutState >>> 14 &&& 3 = 2 from by decide,
        shiftLeft_one_or_eq xa 0 (by decide), shiftLeft_one_or_eq ya 1 (by decide),
        ih hks 2 Xl Yl _ _ (by decide) hXl hYl, Prod.mk.injEq]
      constructor <;> (rw [hm]; ring)
    · norm_num
      rw [show lut1 >>> 12 &&& 3 = 1 from by decide, show lut2 >>> 12 &&& 3 = 1 from by decide]
      norm_num
      rw [show lutX >>> 5 % 2 = 1 from by decide, show lutY >>> 5 % 2 = 0 from by decide,
        show lutState >>> 10 &&& 3 = 1 from by decide,
        shiftLeft_one_or_eq xa 1 (by decide), shiftLeft_one_or_eq ya 0 (by decide),
        ih hks 1 Xl Yl _ _ (by decide) hXl hYl, Prod.mk.injEq]
      constructor <;> (rw [hm]; ring)
    · norm_num
      rw [show lut1 >>> 14 &&& 3 = 2 from by decide, show lut2 >>> 14 &&& 3 = 1 from by decide]
      norm_num
      rw [show lutX >>> 6 % 2 = 1 from by decide, show lutY >>> 6 % 2 = 1 from by decide,
        show lutState >>> 12 &&& 3 = 1 from by decide,
        shiftLeft_one_or_eq xa 1 (by decide), shiftLeft_one_or_eq ya 1 (by decide),
        ih hks 1 Xl Yl _ _ (by decide) hXl hYl, Prod.mk.injEq]
      constructor <;> (rw [hm]; ring)
    · norm_num
      rw [show lut1 >>> 16 &&& 3 = 2 from by decide, show lut2 >>> 16 &&& 3 = 2 from by decide]
      norm_num
      rw [show lutX >>> 10 % 2 = 0 from by decide, show lutY >>> 10 % 2 = 0 from by decide,
        show lutState >>> 20 &&& 3 = 2 from by decide,
        shiftLeft_one_or_eq xa 0 (by decide), shiftLeft_one_or_eq ya 0 (by decide),
        ih hks 2 Xl Yl _ _ (by decide) hXl hYl, Prod.mk.injEq]
      constructor <;> (rw [hm]; ring)
    · norm_num
      rw [show lut1 >>> 18 &&& 3 = 3 from by decide, show lut2 >>> 18 &&& 3 = 1 from by decide]
      norm_num
      rw [show lutX >>> 11 % 2 = 0 from by decide, show lutY >>> 11 % 2 = 1 from by decide,
        show lutState >>> 22 &&& 3 = 1 from by decide,
        shiftLeft_one_or_eq xa 0 (by decide), shiftLeft_one_or_eq ya 1 (by decide),
        ih hks 1 Xl Yl _ _ (by decide) hXl hYl, Prod.mk.injEq]
      constructor <;> (rw [hm]; ring)
    · norm_num
      rw [show lut1 >>> 20 &&& 3 = 1 from by decide, show lut2 >>> 20 &&& 3 = 2 from by decide]
      norm_num
      rw [show lutX >>> 9 % 2 = 1 from by decide, show lutY >>> 9 % 2 = 0 from by decide,
        show lutState >>> 18 &&& 3 = 2 from by decide,
        shiftLeft_one_or_eq xa 1 (by decide), shiftLeft_one_or_eq ya 0 (by decide),
        ih hks 2 Xl Yl _ _ (by decide) hXl hYl, Prod.mk.injEq]
      constructor <;> (rw [hm]; ring)
    · norm_num
      rw [show lut1 >>> 22 &&& 3 = 0 from by decide, show lut2 >>> 22 &&& 3 = 3 from by decide]
      norm_num
      rw [show lutX >>> 8 % 2 = 1 from by decide, show lutY >>> 8 % 2 = 1 from by decide,
        show lutState >>> 16 &&& 3 = 3 from by decide,
        shiftLeft_one_or_eq xa 1 (by decide), shiftLeft_one_or_eq ya 1 (by decide),
        ih hks 3 Xl Yl _ _ (by decide) hXl hYl, Prod.mk.injEq]
      constructor <;> (rw [hm]; ring)
    · norm_num
      rw [show lut1 >>> 24 &&& 3 = 2 from by decide, show lut2 >>> 24 &&& 3 = 3 from by decide]
      norm_num
      rw [show lutX >>> 14 % 2 = 0 from by decide, show lutY >>> 14 % 2 = 0 from by decide,
        show lutState >>> 28 &&& 3 = 3 from by decide,
        shiftLeft_one_or_eq xa 0 (by decide), shiftLeft_one_or_eq ya 0 (by decide),
        ih hks 3 Xl Yl _ _ (by decide) hXl hYl, Prod.mk.injEq]
      constructor <;> (rw [hm]; ring)
    · norm_num
      rw [show lut1 >>> 26 &&& 3 = 1 from by decide, show lut2 >>> 26 &&& 3 = 3 from by decide]
      norm_num
      rw [show lutX >>> 13 % 2 = 0 from by decide, show lutY >>> 13 % 2 = 1 from by decide,
        show lutState >>> 26 &&& 3 = 3 from by decide,
        shiftLeft_one_or_eq xa 0 (by decide), shiftLeft_one_or_eq ya 1 (by decide),
        ih hks 3 Xl Yl _ _ (by decide) hXl hYl, Prod.mk.injEq]
      constructor <;> (rw [hm]; ring)
    · norm_num
      rw [show lut1 >>> 28 &&& 3 = 3 from by decide, show lut2 >>> 28 &&& 3 = 0 from by decide]
      norm_num
      rw [show lutX >>> 15 % 2 = 1 from by decide, show lutY >>> 15 % 2 = 0 from by decide,
        show lutState >>> 30 &&& 3 = 0 from by decide,
        shiftLeft_one_or_eq xa 1 (by decide), shiftLeft_one_or_eq ya 0 (by decide),
        ih hks 0 Xl Yl _ _ (by decide) hXl hYl, Prod.mk.injEq]
      constructor <;> (rw [hm]; ring)
    · norm_num
      rw [show lut1 >>> 30 &&& 3 = 0 from by decide, show lut2 >>> 30 &&& 3 = 2 from by decide]
      norm_num
      rw [show lutX >>> 12 % 2 = 1 from by decide, show lutY >>> 12 % 2 = 1 from by decide,
        show lutState >>> 24 &&& 3 = 2 from by decide,
        shiftLeft_one_or_eq xa 1 (by decide), shiftLeft_one_or_eq ya 1 (by decide),
        ih hks 2 Xl Yl _ _ (by decide) hXl hYl, Prod.mk.injEq]
      constructor <;> (rw [hm]; ring)

/-- C2: the fast encoder agrees with the reference encoder for every
`(z, x, y)` with `z ≤ 26`, `x < 2^z`, `y < 2^z`; and the fast and reference
decoders agree on every tile id below `0x5555555555555555` whose zoom is at
most 26. -/
theorem C2_fast_matches_reference :
    (∀ z x y, z ≤ 26 → x < 2 ^ z → y < 2 ^ z →
      FastZXYToHilbertTileID z x y = ZXYToHilbertTileID z x y) ∧
    (∀ i, i < invalidTileID → ZoomFromHilbertTileID i ≤ 26 →
      FastZXYfromHilbertTileID i = ZXYFromHilbertTileID i) := by
  constructor
  · intro z x y hz hx hy
    have hzpow : (2 : Nat) ^ z ≤ 2 ^ 26 := Nat.pow_le_pow_right (by decide) hz
    have h26 : (2 : Nat) ^ 26 = 67108864 := by norm_num
    have hM : M64 = 2 ^ 64 := rfl
    have h64 : (2 : Nat) ^ 64 = 18446744073709551616 := by norm_num
    unfold FastZXYToHilbertTileID ZXYToHilbertTileID
    rw [if_neg (show ¬ z > 31 by omega), if_neg (show ¬ z > MaxZ by unfold MaxZ; omega),
      if_neg (show ¬ (2 ^ z ≤ x ∨ 2 ^ z ≤ y) by push_neg; exact ⟨hx, hy⟩),
      if_neg (show ¬ (2 ^ z ≤ x ∨ 2 ^ z ≤ y) by push_neg; exact ⟨hx, hy⟩),
      hilbertAcc_eq z (by omega) x y _ (by omega) (by omega), two_pow_two_mul,
      fastEncAcc_eq z x y 0 0 (by decide), Nat.mod_eq_of_lt hx, Nat.mod_eq_of_lt hy]
    norm_num [applyT]
  · intro i hi hzoom
    have hM : M64 = 2 ^ 64 := rfl
    have h64 : (2 : Nat) ^ 64 = 18446744073709551616 := by norm_num
    have hInv : invalidTileID = 0x5555555555555555 := rfl
    have hc : 3 * i + 1 < M64 := by omega
    have hz1 : ZoomFromHilbertTileID i = (Nat.size (3 * i + 1) - 1) / 2 := by
      unfold ZoomFromHilbertTileID len64
      rw [Nat.mod_eq_of_lt hc, len64Acc_eq_size _ _ (by omega)]
    have hS1 : 0 < Nat.size (3 * i + 1) := Nat.lt_size.2 (by omega)
    have hzle : 2 * ZoomFromHilbertTileID i < Nat.size (3 * i + 1) := by
      rw [hz1]
      omega
    have hzge : Nat.size (3 * i + 1) ≤ 2 * ZoomFromHilbertTileID i + 2 := by
      rw [hz1]
      omega
    have hlow : 2 ^ (2 * ZoomFromHilbertTileID i) ≤ 3 * i + 1 := Nat.lt_size.1 hzle
    have hhigh : 3 * i + 1 < 2 ^ (2 * ZoomFromHilbertTileID i + 2) := Nat.size_le.1 hzge
    set z := ZoomFromHilbertTileID i with hz
    have h3 := three_mul_pfx z
    have hp : (0 : Nat) < 2 ^ (2 * z) := Nat.pos_pow_of_pos _ (by decide)
    have hq : (2 : Nat) ^ (2 * z + 2) = 4 * 2 ^ (2 * z) := by
      rw [pow_add]
      ring
    have hpfxle : (2 ^ (2 * z) - 1) / 3 ≤ i := by omega
    have he : i - (2 ^ (2 * z) - 1) / 3 < 2 ^ (2 * z) := by omega
    obtain ⟨hp1, hp2, hp3⟩ := encC_decAcc z (by omega) (i - (2 ^ (2 * z) - 1) / 3) he
    have hzoomAcc : fastZoomAcc 64 0 ((3 * i + 1) % M64) = z := by
      rw [Nat.mod_eq_of_lt hc]
      exact fastZoomAcc_eq 64 0 z (3 * i + 1) (by omega) hzoom (by omega) hlow hhigh
    have happ : applyT 0 (2 ^ z) (hilbertDecAcc z 0 (i - (2 ^ (2 * z) - 1) / 3) 0 0).1
        (hilbertDecAcc z 0 (i - (2 ^ (2 * z) - 1) / 3) 0 0).2 =
        ((hilbertDecAcc z 0 (i - (2 ^ (2 * z) - 1) / 3) 0 0).1,
          (hilbertDecAcc z 0 (i - (2 ^ (2 * z) - 1) / 3) 0 0).2) := by
      simp [applyT]
    have hfd := fastDecAcc_eq z (by omega) 0 (hilbertDecAcc z 0 (i - (2 ^ (2 * z) - 1) / 3) 0 0).1
      (hilbertDecAcc z 0 (i - (2 ^ (2 * z) - 1) / 3) 0 0).2 0 0 (by decide) hp1 hp2
    rw [happ] at hfd
    norm_num at hfd
    rw [hp3] at hfd
    unfold FastZXYfromHilbertTileID ZXYFromHilbertTileID
    rw [if_neg (not_le.mpr hi), if_neg (not_le.mpr hi), ← hz, hzoomAcc,
      if_neg (show ¬ z > MaxZ by unfold MaxZ; omega)]
    dsimp only
    rw [sub64_eq_of_le i ((2 ^ (2 * z) - 1) / 3) hpfxle (by omega), hfd]

theorem C2_fast_matches_reference_witness :
    FastZXYToHilbertTileID 10 205 342 = ZXYToHilbertTileID 10 205 342 ∧
    FastZXYfromHilbertTileID 1000 = ZXYFromHilbertTileID 1000 :=
  ⟨C2_fast_matches_reference.1 10 205 342 (by decide) (by decide) (by decide),
   C2_fast_matches_reference.2 1000 (by decide) (by decide)⟩

/-! Binary search and FindTile. -/

theorem searchLoop_inv (f : Nat → Bool) : ∀ fuel i j, i ≤ j → j - i ≤ fuel →
    (i = 0 ∨ f (i - 1) = false) →
    (searchLoop f fuel i j = 0 ∨ f (searchLoop f fuel i j - 1) = false) ∧
    i ≤ searchLoop f fuel i j ∧ searchLoop f fuel i j ≤ j := by
  intro fuel
  induction fuel with
  | zero =>
    intro i j hij hfuel hinv
    exact ⟨hinv, Nat.le_refl i, hij⟩
  | succ fuel ih =>
    intro i j hij hfuel hinv
    simp only [searchLoop]
    by_cases hlt : i < j
    · rw [if_pos hlt]
      by_cases hf : f ((i + j) / 2) = true
      · rw [if_pos hf]
        have h := ih i ((i + j) / 2) (by omega) (by omega) hinv
        exact ⟨h.1, h.2.1, Nat.le_trans h.2.2 (by omega)⟩
      · rw [if_neg hf]
        have hfalse : f ((i + j) / 2) = false := by
          cases hq : f ((i + j) / 2)
          · rfl
          · exact absurd hq hf
        have h := ih ((i + j) / 2 + 1) j (by omega) (by omega)
          (Or.inr (by simpa using hfalse))
        exact ⟨h.1, Nat.le_trans (by omega) h.2.1, h.2.2⟩
    · rw [if_neg hlt]
      exact ⟨hinv, Nat.le_refl i, hij⟩

/-- C3: on a directory sorted strictly by tileId, `Directory.FindTile t`
returns either `none` or an entry `e` with `e.TileID ≤ t` and either
`e.RunLength = 0` or `t < e.TileID + e.RunLength`. -/
theorem C3_findTile_sound (d : Directory) (t : Nat)
    (hsorted : List.Pairwise (fun a b => a.TileID < b.TileID) d.entries) :
    ∀ e, d.FindTile t = some e →
      e.TileID ≤ t ∧ (e.RunLength = 0 ∨ t < e.TileID + e.RunLength) := by
  intro e he
  simp only [Directory.FindTile] at he
  set f := fun h => decide (t < (d.entries.getD h ⟨0, 0, 0, 0⟩).TileID) with hfdef
  obtain ⟨hres, _, _⟩ := searchLoop_inv f (d.entries.length + 1) 0 d.entries.length
    (by omega) (by omega) (Or.inl rfl)
  by_cases h0 : sortSearch d.entries.length f = 0
  · rw [if_pos h0] at he
    exact absurd he (by simp)
  · rw [if_neg h0] at he
    have hres' : f (sortSearch d.entries.length f - 1) = false := by
      rcases hres with h | h
      · exact absurd h h0
      · exact h
    have hle :
        (d.entries.getD (sortSearch d.entries.length f - 1) ⟨0, 0, 0, 0⟩).TileID ≤ t := by
      rw [hfdef] at hres'
      simp only [decide_eq_false_iff_not, Nat.not_lt] at hres'
      exact hres'
    by_cases hrl :
        (d.entries.getD (sortSearch d.entries.length f - 1) ⟨0, 0, 0, 0⟩).RunLength = 0
    · rw [if_pos hrl] at he
      cases he
      exact ⟨hle, Or.inl hrl⟩
    · rw [if_neg hrl] at he
      by_cases hc : t = (d.entries.getD (sortSearch d.entries.length f - 1) ⟨0, 0, 0, 0⟩).TileID ∨
          t < ((d.entries.getD (sortSearch d.entries.length f - 1) ⟨0, 0, 0, 0⟩).TileID +
            (d.entries.getD (sortSearch d.entries.length f - 1) ⟨0, 0, 0, 0⟩).RunLength) % M64
      · rw [if_pos hc] at he
        cases he
        refine ⟨hle, Or.inr ?_⟩
        rcases hc with h | h
        · omega
        · have hm := Nat.mod_le ((d.entries.getD (sortSearch d.entries.length f - 1)
            ⟨0, 0, 0, 0⟩).TileID + (d.entries.getD (sortSearch d.entries.length f - 1)
            ⟨0, 0, 0, 0⟩).RunLength) M64
          omega
      · rw [if_neg hc] at he
        exact absurd he (by simp)

theorem C3_findTile_sound_witness :
    (⟨3, 0, 100, 2⟩ : Entry).TileID ≤ 4 ∧
      ((⟨3, 0, 100, 2⟩ : Entry).RunLength = 0 ∨
        4 < (⟨3, 0, 100, 2⟩ : Entry).TileID + (⟨3, 0, 100, 2⟩ : Entry).RunLength) :=
  C3_findTile_sound ⟨"", 2, [⟨3, 0, 100, 2⟩, ⟨10, 5, 7, 0⟩]⟩ 4 (by decide) ⟨3, 0, 100, 2⟩
    (by decide)

/-! Directory deserialization pass lemmas. -/

theorem addTileIDAcc_spec : ∀ (es : List Entry) (lastId : Nat) (bs : List Nat) es1 rest,
    addTileIDAcc lastId es bs = some (es1, rest) →
    ∃ ds bs2, decodeUvarints es.length bs = some (ds, bs2) ∧ rest = bs2 ∧
      es1.length = es.length ∧ ds.length = es.length ∧
      ∀ idx (h : idx < es1.length),
        (es1.get ⟨idx, h⟩).TileID = (lastId + (ds.take (idx + 1)).sum) % M64 := by
  intro es
  induction es with
  | nil =>
    intro lastId bs es1 rest h
    simp only [addTileIDAcc] at h
    cases h
    exact ⟨[], bs, rfl, rfl, rfl, rfl, fun idx h => absurd h (by simp)⟩
  | cons e es ih =>
    intro lastId bs es1 rest h
    simp only [addTileIDAcc] at h
    cases hv : readUvarint bs with
    | none => simp only [hv] at h; exact absurd h (by simp)
    | some p =>
      obtain ⟨delta, bs1⟩ := p
      simp only [hv] at h
      cases hrec : addTileIDAcc ((lastId + delta) % M64) es bs1 with
      | none => simp only [hrec] at h; exact absurd h (by simp)
      | some q =>
        obtain ⟨es1', bs2'⟩ := q
        simp only [hrec] at h
        cases h
        obtain ⟨ds, bs2, hdec, hrest, hlen1, hlen2, hprop⟩ := ih _ bs1 es1' _ hrec
        refine ⟨delta :: ds, bs2, ?_, hrest, by simp [hlen1], by simp [hlen2], ?_⟩
        · simp only [List.length_cons, decodeUvarints, hv, hdec]
        · intro idx h
          cases idx with
          | zero => simp
          | succ n =>
            have h' : n < es1'.length := by simpa using h
            have hp := hprop n h'
            simp only [List.get_cons_succ, List.take_succ_cons, List.sum_cons]
            rw [hp, Nat.mod_add_mod, Nat.add_assoc]

theorem addRunLengthAcc_spec : ∀ (es : List Entry) (bs : List Nat) es1 rest,
    addRunLengthAcc es bs = some (es1, rest) →
    ∃ vs bs2, decodeUvarints es.length bs = some (vs, bs2) ∧ rest = bs2 ∧
      es1.length = es.length ∧ vs.length = es.length ∧
      ∀ idx (h : idx < es1.length) (h' : idx < vs.length),
        (es1.get ⟨idx, h⟩).RunLength = vs.get ⟨idx, h'⟩ % 2 ^ 32 := by
  intro es
  induction es with
  | nil =>
    intro bs es1 rest h
    simp only [addRunLengthAcc] at h
    cases h
    exact ⟨[], bs, rfl, rfl, rfl, rfl, fun idx h => absurd h (by simp)⟩
  | cons e es ih =>
    intro bs es1 rest h
    simp only [addRunLengthAcc] at h
    cases hv : readUvarint bs with
    | none => simp only [hv] at h; exact absurd h (by simp)
    | some p =>
      obtain ⟨rl, bs1⟩ := p
      simp only [hv] at h
      cases hrec : addRunLengthAcc es bs1 with
      | none => simp only [hrec] at h; exact absurd h (by simp)
      | some q =>
        obtain ⟨es1', bs2'⟩ := q
        simp only [hrec] at h
        cases h
        obtain ⟨vs, bs2, hdec, hrest, hlen1, hlen2, hprop⟩ := ih bs1 es1' _ hrec
        refine ⟨rl :: vs, bs2, ?_, hrest, by simp [hlen1], by simp [hlen2], ?_⟩
        · simp only [List.length_cons, decodeUvarints, hv, hdec]
        · intro idx h h'
          cases idx with
          | zero => simp
          | succ n =>
            have hn : n < es1'.length := by simpa using h
            have hn' : n < vs.length := by simpa using h'
            simp only [List.get_cons_succ]
            exact hprop n hn hn'

theorem addOffsetAcc_spec : ∀ (es : List Entry) (prev : Option (Nat × Nat))
    (bs : List Nat) es1 rest,
    addOffsetAcc prev es bs = some (es1, rest) →
    ∃ vs bs2, decodeUvarints es.length bs = some (vs, bs2) ∧ rest = bs2 ∧
      es1.length = es.length ∧ vs.length = es.length ∧
      (∀ idx (h : idx < es1.length) (hh : idx < es.length),
        (es1.get ⟨idx, h⟩).Length = (es.get ⟨idx, hh⟩).Length) ∧
      (∀ idx (h : idx < es1.length) (h' : idx < vs.length),
        (es1.get ⟨idx, h⟩).Offset =
          offsetFromPrev
            (if idx = 0 then prev
             else some ((es1.get ⟨idx - 1, by omega⟩).Offset,
               (es1.get ⟨idx - 1, by omega⟩).Length))
            (vs.get ⟨idx, h'⟩)) := by
  intro es
  induction es with
  | nil =>
    intro prev bs es1 rest h
    simp only [addOffsetAcc] at h
    cases h
    exact ⟨[], bs, rfl, rfl, rfl, rfl, fun idx h hh => absurd h (by simp),
      fun idx h => absurd h (by simp)⟩
  | cons e es ih =>
    intro prev bs es1 rest h
    simp only [addOffsetAcc] at h
    cases hv : readUvarint bs with
    | none => simp only [hv] at h; exact absurd h (by simp)
    | some p =>
      obtain ⟨v, bs1⟩ := p
      simp only [hv] at h
      cases hrec : addOffsetAcc (some (offsetFromPrev prev v, e.Length)) es bs1 with
      | none => simp only [hrec] at h; exact absurd h (by simp)
      | some q =>
        obtain ⟨es1', bs2'⟩ := q
        simp only [hrec] at h
        cases h
        obtain ⟨vs, bs2, hdec, hrest, hlen1, hlen2, hlenprop, hoffprop⟩ :=
          ih (some (offsetFromPrev prev v, e.Length)) bs1 es1' _ hrec
        refine ⟨v :: vs, bs2, ?_, hrest, by simp [hlen1], by simp [hlen2], ?_, ?_⟩
        · simp only [List.length_cons, decodeUvarints, hv, hdec]
        · intro idx h hh
          cases idx with
          | zero => simp
          | succ n =>
            have hn : n < es1'.length := by simpa using h
            have hn2 : n < es.length := by simpa using hh
            simp only [List.get_cons_succ]
            exact hlenprop n hn hn2
        · intro idx h h'
          cases idx with
          | zero => simp
          | succ n =>
            have hn : n < es1'.length := by simpa using h
            have hn' : n < vs.length := by simpa using h'
            have hp := hoffprop n hn hn'
            simp only [List.get_cons_succ]
            rw [hp]
            cases n with
            | zero => simp
            | succ m => simp

/-! List access helper lemmas for the header theorem. -/

theorem getD_take_eq : ∀ (l : List Nat) (k i : Nat), i < k →
    (List.take k l).getD i 0 = l.getD i 0 := by
  intro l
  induction l with
  | nil => intro k i h; simp
  | cons a l ih =>
    intro k i h
    cases k with
    | zero => omega
    | succ k =>
      cases i with
      | zero => simp
      | succ i => simpa using ih k i (by omega)

theorem readLE_take (l : List Nat) (k : Nat) : ∀ (n off : Nat), off + n ≤ k →
    readLE (List.take k l) off n = readLE l off n := by
  intro n
  induction n with
  | zero => intro off h; rfl
  | succ n ih =>
    intro off h
    simp only [readLE]
    rw [getD_take_eq l k off (by omega), ih (off + 1) (by omega)]

/-- C4: directory deserialization computes each TileID as the cumulative
sum of the decoded deltas starting from 0 (uint64 addition), computes each
Offset as the previous offset plus previous length when the stored varint
is 0 at an index above 0 and as the stored value minus one otherwise, and
the concrete stream with count 2, deltas 3,1, run lengths 2,1, lengths
100,50 and stored offsets 500,0 decodes to the two entries
(tileId 3, runLength 2, length 100, offset 499) and
(tileId 4, runLength 1, length 50, offset 599). -/
theorem C4_directory_deserialization :
    (∀ (es : List Entry) (bs : List Nat) es1 rest,
      addTileIDAcc 0 es bs = some (es1, rest) →
      ∃ ds bs2, decodeUvarints es.length bs = some (ds, bs2) ∧
        ∀ idx (h : idx < es1.length),
          (es1.get ⟨idx, h⟩).TileID = (ds.take (idx + 1)).sum % M64) ∧
    (∀ (es : List Entry) (bs : List Nat) es1 rest,
      addOffsetAcc none es bs = some (es1, rest) →
      ∃ vs bs2, decodeUvarints es.length bs = some (vs, bs2) ∧
        ∀ idx (h : idx < es1.length) (h2 : idx < vs.length),
          (es1.get ⟨idx, h⟩).Offset =
            if vs.get ⟨idx, h2⟩ = 0 ∧ 0 < idx then
              ((es1.get ⟨idx - 1, by omega⟩).Offset +
                (es1.get ⟨idx - 1, by omega⟩).Length) % M64
            else sub64 (vs.get ⟨idx, h2⟩) 1) ∧
    readEntries [2, 3, 1, 2, 1, 100, 50, 244, 3, 0] =
      some ([⟨3, 499, 100, 2⟩, ⟨4, 599, 50, 1⟩], []) := by
  refine ⟨?_, ?_, by decide⟩
  · intro es bs es1 rest h
    obtain ⟨ds, bs2, hdec, _, _, _, hprop⟩ := addTileIDAcc_spec es 0 bs es1 rest h
    refine ⟨ds, bs2, hdec, ?_⟩
    intro idx h1
    rw [hprop idx h1, Nat.zero_add]
  · intro es bs es1 rest h
    obtain ⟨vs, bs2, hdec, _, _, _, _, hoff⟩ := addOffsetAcc_spec es none bs es1 rest h
    refine ⟨vs, bs2, hdec, ?_⟩
    intro idx h1 h2
    rw [hoff idx h1 h2]
    cases idx with
    | zero => simp [offsetFromPrev]
    | succ n =>
      by_cases hv : vs.get ⟨n + 1, h2⟩ = 0
      · simp [offsetFromPrev, hv]
      · simp [offsetFromPrev, hv]

theorem C4_directory_deserialization_witness :
    ∃ ds bs2,
      decodeUvarints (List.length ([⟨0, 0, 0, 0⟩, ⟨0, 0, 0, 0⟩] : List Entry)) [3, 1] =
        some (ds, bs2) ∧
      ∀ idx (h : idx < ([⟨3, 0, 0, 0⟩, ⟨4, 0, 0, 0⟩] : List Entry).length),
        ((([⟨3, 0, 0, 0⟩, ⟨4, 0, 0, 0⟩] : List Entry).get ⟨idx, h⟩).TileID =
          (ds.take (idx + 1)).sum % M64) :=
  C4_directory_deserialization.1 [⟨0, 0, 0, 0⟩, ⟨0, 0, 0, 0⟩] [3, 1]
    [⟨3, 0, 0, 0⟩, ⟨4, 0, 0, 0⟩] [] (by decide)

/-- C5 counterexample: the spec says an oversized run-length varint is
clamped to the u32 maximum; the code truncates.  A stored run length of
2 ^ 32 decodes to a RunLength of 0, not 2 ^ 32 - 1. -/
theorem C5_runLength_clamp_counterexample :
    readUvarint [128, 128, 128, 128, 16] = some (2 ^ 32, []) ∧
    readEntries [1, 0, 128, 128, 128, 128, 16, 0, 1] = some ([⟨0, 0, 0, 0⟩], []) ∧
    (0 : Nat) ≠ 2 ^ 32 - 1 := by decide

/-- C5 (amended): every decoded run-length varint is reduced modulo
2 ^ 32 by the uint32 conversion in addRunLength, so oversized values
wrap rather than clamp. -/
theorem C5_runLength_truncates (es : List Entry) (bs : List Nat) (es1 : List Entry)
    (rest : List Nat) (h : addRunLengthAcc es bs = some (es1, rest)) :
    ∃ vs bs2, decodeUvarints es.length bs = some (vs, bs2) ∧
      ∀ idx (h1 : idx < es1.length) (h2 : idx < vs.length),
        (es1.get ⟨idx, h1⟩).RunLength = vs.get ⟨idx, h2⟩ % 2 ^ 32 := by
  obtain ⟨vs, bs2, hdec, _, _, _, hprop⟩ := addRunLengthAcc_spec es bs es1 rest h
  exact ⟨vs, bs2, hdec, hprop⟩

theorem C5_runLength_truncates_witness :
    ∃ vs bs2,
      decodeUvarints (List.length ([⟨0, 0, 0, 0⟩] : List Entry)) [128, 128, 128, 128, 16] =
        some (vs, bs2) ∧
      ∀ idx (h1 : idx < ([⟨0, 0, 0, 0⟩] : List Entry).length) (h2 : idx < vs.length),
        ((([⟨0, 0, 0, 0⟩] : List Entry).get ⟨idx, h1⟩).RunLength =
          vs.get ⟨idx, h2⟩ % 2 ^ 32) :=
  C5_runLength_truncates [⟨0, 0, 0, 0⟩] [128, 128, 128, 128, 16] [⟨0, 0, 0, 0⟩] []
    (by decide)

/-- C10: when the stored offset varint of the first entry is 0, the
propagation branch is skipped (it requires index above 0) and the entry
gets Offset = 0 - 1 in uint64 arithmetic, which wraps to 2 ^ 64 - 1. -/
theorem C10_first_offset_wraps (e : Entry) (es : List Entry) (bs bs1 : List Nat)
    (es1 : List Entry) (rest : List Nat)
    (hv : readUvarint bs = some (0, bs1))
    (h : addOffsetAcc none (e :: es) bs = some (es1, rest)) :
    ∃ e1 tl, es1 = e1 :: tl ∧ e1.Offset = 2 ^ 64 - 1 := by
  simp only [addOffsetAcc, hv] at h
  cases hrec : addOffsetAcc (some (offsetFromPrev none 0, e.Length)) es bs1 with
  | none => simp only [hrec] at h; exact absurd h (by simp)
  | some q =>
    obtain ⟨es1q, bs2q⟩ := q
    simp only [hrec] at h
    cases h
    exact ⟨{ e with Offset := offsetFromPrev none 0 }, es1q, rfl,
      show offsetFromPrev none 0 = 2 ^ 64 - 1 by decide⟩

theorem C10_first_offset_wraps_witness :
    ∃ e1 tl, ([⟨0, 2 ^ 64 - 1, 0, 0⟩] : List Entry) = e1 :: tl ∧
      e1.Offset = 2 ^ 64 - 1 :=
  C10_first_offset_wraps ⟨0, 0, 0, 0⟩ [] [0] [] [⟨0, 2 ^ 64 - 1, 0, 0⟩] []
    (by decide) (by decide)

/-- C6: header parsing returns a truncation error on fewer than 127
bytes, a bad-magic error when the first 7 bytes are not "PMTiles", an
unsupported-version error when byte 7 is 1 or 2, an unknown-version error
when byte 7 is anything else but 3, and on a well-formed input succeeds
with SpecVersion 3 and the little-endian u64 at bytes 8..16 as
RootOffset. -/
theorem C6_header_parsing (bs : List Nat) :
    (bs.length < 127 → NewHeader bs = .error .truncated) ∧
    (127 ≤ bs.length → bs.take 7 ≠ pmMagic → NewHeader bs = .error .badMagic) ∧
    (127 ≤ bs.length → bs.take 7 = pmMagic → (bs.getD 7 0 = 1 ∨ bs.getD 7 0 = 2) →
      NewHeader bs = .error .unsupportedVersion) ∧
    (127 ≤ bs.length → bs.take 7 = pmMagic → ¬(bs.getD 7 0 = 1 ∨ bs.getD 7 0 = 2) →
      bs.getD 7 0 ≠ 3 → NewHeader bs = .error .unknownVersion) ∧
    (127 ≤ bs.length → bs.take 7 = pmMagic → bs.getD 7 0 = 3 →
      ∃ hd, NewHeader bs = .ok hd ∧ hd.SpecVersion = 3 ∧ hd.RootOffset = readLE bs 8 8) := by
  have htk : (List.take 127 bs).take 7 = bs.take 7 := by
    rw [List.take_take]
    norm_num
  have hg7 : (List.take 127 bs).getD 7 0 = bs.getD 7 0 := getD_take_eq bs 127 7 (by omega)
  refine ⟨?_, ?_, ?_, ?_, ?_⟩
  · intro h
    simp [NewHeader, h]
  · intro hl hm
    have h0 : NewHeader bs = HeaderV3.deserialize (List.take 127 bs) := by
      unfold NewHeader
      rw [if_neg (by omega)]
    rw [h0]
    unfold HeaderV3.deserialize
    rw [htk, if_pos hm]
  · intro hl hm hv
    have h0 : NewHeader bs = HeaderV3.deserialize (List.take 127 bs) := by
      unfold NewHeader
      rw [if_neg (by omega)]
    have hver : headerVersion (bs.getD 7 0) = .error .unsupportedVersion := by
      unfold headerVersion
      rw [if_pos hv]
    rw [h0]
    unfold HeaderV3.deserialize
    rw [htk, if_neg (not_not_intro hm), hg7, hver]
  · intro hl hm hv1 hv3
    have h0 : NewHeader bs = HeaderV3.deserialize (List.take 127 bs) := by
      unfold NewHeader
      rw [if_neg (by omega)]
    have hver : headerVersion (bs.getD 7 0) = .error .unknownVersion := by
      unfold headerVersion
      rw [if_neg hv1, if_neg hv3]
    rw [h0]
    unfold HeaderV3.deserialize
    rw [htk, if_neg (not_not_intro hm), hg7, hver]
  · intro hl hm hv
    have h0 : NewHeader bs = HeaderV3.deserialize (List.take 127 bs) := by
      unfold NewHeader
      rw [if_neg (by omega)]
    have hver : headerVersion (bs.getD 7 0) = .ok 3 := by
      unfold headerVersion
      rw [hv]
      simp
    rw [h0]
    unfold HeaderV3.deserialize
    rw [htk, if_neg (not_not_intro hm), hg7, hver]
    exact ⟨_, rfl, rfl, readLE_take bs 127 8 8 (by omega)⟩

set_option maxRecDepth 4000 in
theorem C6_header_parsing_witness :
    ∃ hd, NewHeader (pmMagic ++ 3 :: 232 :: 3 :: List.replicate 117 0) = .ok hd ∧
      hd.SpecVersion = 3 ∧
      hd.RootOffset = readLE (pmMagic ++ 3 :: 232 :: 3 :: List.replicate 117 0) 8 8 :=
  (C6_header_parsing (pmMagic ++ 3 :: 232 :: 3 :: List.replicate 117 0)).2.2.2.2
    (by decide) (by decide) (by decide)

/-- C7: Source.Tile rejects a zoom below MinZoom or above MaxZoom with a
zoom-out-of-range error no matter what the underlying repository call
would do (so nothing is read), and for a zoom within the range it
delegates to the repository call. -/
theorem C7_zoom_gate (header : HeaderV3)
    (repoTile : Nat → Nat → Nat → Except TileError (List Nat)) (z x y : Nat) :
    (z < header.MinZoom ∨ header.MaxZoom < z →
      Source.Tile repoTile header z x y = .error .zoomOutOfRange) ∧
    (header.MinZoom ≤ z → z ≤ header.MaxZoom →
      Source.Tile repoTile header z x y = repoTile z x y) := by
  constructor
  · intro hz
    unfold Source.Tile
    rw [if_pos hz]
  · intro h1 h2
    unfold Source.Tile
    rw [if_neg (by omega)]

theorem C7_zoom_gate_witness :
    Source.Tile (fun _ _ _ => .ok [7])
        ⟨"", 3, 0, 0, 0, 0, 0, 0, 0, 0, 0, 0, 0, false, 0, 0, 0, 1, 5, 0, 0, 0, 0, 0, 0, 0⟩
        0 0 0 = .error .zoomOutOfRange ∧
    Source.Tile (fun _ _ _ => .ok [7])
        ⟨"", 3, 0, 0, 0, 0, 0, 0, 0, 0, 0, 0, 0, false, 0, 0, 0, 1, 5, 0, 0, 0, 0, 0, 0, 0⟩
        3 0 0 = .ok [7] :=
  ⟨(C7_zoom_gate
      ⟨"", 3, 0, 0, 0, 0, 0, 0, 0, 0, 0, 0, 0, false, 0, 0, 0, 1, 5, 0, 0, 0, 0, 0, 0, 0⟩
      (fun _ _ _ => .ok [7]) 0 0 0).1 (Or.inl (by decide)),
   (C7_zoom_gate
      ⟨"", 3, 0, 0, 0, 0, 0, 0, 0, 0, 0, 0, 0, false, 0, 0, 0, 1, 5, 0, 0, 0, 0, 0, 0, 0⟩
      (fun _ _ _ => .ok [7]) 3 0 0).2 (by decide) (by decide)⟩

/-- C8: when FindTile reports no covering entry, the directory walk
returns empty bytes with no error, and so does Repository.Tile when this
happens at the root directory: a missing tile is empty bytes, never an
error value. -/
theorem C8_missing_tile_empty
    (dirAt : Nat → Nat → Except TileError Directory)
    (readTile : Nat → Nat → Except TileError (List Nat))
    (header : HeaderV3) (tileId : Nat) :
    (∀ fuel dO dS dir, dirAt dO dS = .ok dir → dir.FindTile tileId = none →
      walkTile dirAt readTile header tileId (fuel + 1) dO dS = .ok []) ∧
    (∀ z x y dir, FastZXYToHilbertTileID z x y = some tileId →
      dirAt header.RootOffset header.RootLength = .ok dir →
      dir.FindTile tileId = none →
      Repository.Tile dirAt readTile header z x y = .ok []) := by
  constructor
  · intro fuel dO dS dir h1 h2
    simp only [walkTile, h1, h2]
  · intro z x y dir he h1 h2
    simp only [Repository.Tile, he]
    show walkTile dirAt readTile header tileId (2 + 1) header.RootOffset header.RootLength =
      .ok []
    simp only [walkTile, h1, h2]

theorem C8_missing_tile_empty_witness :
    walkTile (fun _ _ => .ok ⟨"", 0, []⟩) (fun _ _ => .error .ioError)
      ⟨"", 3, 0, 0, 0, 0, 0, 0, 0, 0, 0, 0, 0, false, 0, 0, 0, 0, 0, 0, 0, 0, 0, 0, 0, 0⟩
      0 1 0 0 = .ok [] ∧
    Repository.Tile (fun _ _ => .ok ⟨"", 0, []⟩) (fun _ _ => .error .ioError)
      ⟨"", 3, 0, 0, 0, 0, 0, 0, 0, 0, 0, 0, 0, false, 0, 0, 0, 0, 0, 0, 0, 0, 0, 0, 0, 0⟩
      0 0 0 = .ok [] :=
  ⟨(C8_missing_tile_empty (fun _ _ => .ok ⟨"", 0, []⟩) (fun _ _ => .error .ioError)
      ⟨"", 3, 0, 0, 0, 0, 0, 0, 0, 0, 0, 0, 0, false, 0, 0, 0, 0, 0, 0, 0, 0, 0, 0, 0, 0⟩
      0).1 0 0 0 ⟨"", 0, []⟩ rfl (by decide),
   (C8_missing_tile_empty (fun _ _ => .ok ⟨"", 0, []⟩) (fun _ _ => .error .ioError)
      ⟨"", 3, 0, 0, 0, 0, 0, 0, 0, 0, 0, 0, 0, false, 0, 0, 0, 0, 0, 0, 0, 0, 0, 0, 0, 0⟩
      0).2 0 0 0 ⟨"", 0, []⟩ (by decide) rfl (by decide)⟩

end Pmtilr
